import Mathlib

/-!
The task handlers and the tasks table of todolist.

A shallow embedding of `handlers/task.go`, `handlers/day.go` and
`models/task.go`.  The SQLite table is an explicit `Store` value threaded
through every operation, the wall clock is an explicit `time.Time` argument,
and the handful of functions of Go's `time` package that the handlers call are
embedded in the namespace `time`.
-/

set_option autoImplicit false

namespace time

/-! ## The part of Go's `time` package used by the handlers -/

/-- A Go `time.Time` at the granularity of seconds: an instant (`sec`,
seconds since 1970-01-01T00:00:00Z) together with the offset, in seconds east
of UTC, of the location it is presented in.  `time.Now()` carries the offset
of the process's local zone, `time.Parse` without a zone in the layout yields
offset 0 (UTC).  A location is a fixed offset: zone transitions between two
dates of one computation are not represented. -/
structure Time where
  sec : Int
  offset : Int
  deriving DecidableEq, Repr

/-- Go `isLeap`. -/
def isLeap (year : Int) : Bool :=
  year % 4 == 0 && (year % 100 != 0 || year % 400 == 0)

/-- Go table `daysBefore`: `daysBefore m` is the number of days of a non-leap
year that precede the first day of month `m + 1`. -/
def daysBefore : Nat → Int
  | 0 => 0
  | 1 => 31
  | 2 => 59
  | 3 => 90
  | 4 => 120
  | 5 => 151
  | 6 => 181
  | 7 => 212
  | 8 => 243
  | 9 => 273
  | 10 => 304
  | 11 => 334
  | _ => 365

/-- Go `daysIn`: the number of days of `month` (1..12) in `year`. -/
def daysIn (month : Nat) (year : Int) : Int :=
  if month = 2 ∧ isLeap year = true then 29
  else daysBefore month - daysBefore (month - 1)

/-- Days from 1970-01-01 to January 1 of `year` (Go `daysSinceEpoch`, shifted
from Go's absolute epoch to the Unix epoch). -/
def daysSinceEpoch (year : Int) : Int :=
  let y := year - 1
  365 * y + y / 4 - y / 100 + y / 400 - 719162

/-- The day part of Go `Date(year, month, day, 0, 0, 0, 0, UTC)`: days from
1970-01-01 to the given civil date.  As in Go, `day` is not normalised but
added, so `day` may lie outside the month. -/
def dateToDays (year : Int) (month : Nat) (day : Int) : Int :=
  daysSinceEpoch year + daysBefore (month - 1)
    + (if isLeap year = true ∧ 3 ≤ month then 1 else 0) + (day - 1)

/-- The year and the zero-based day of the year of a day number (the 400, 100,
4 and 1 year cycles of Go `absDate`). -/
def yearDay (days : Int) : Int × Int :=
  let d := days + 719162
  let n400 := d / 146097
  let d := d % 146097
  let n100 := d / 36524
  let n100 := n100 - n100 / 4
  let d := d - 36524 * n100
  let n4 := d / 1461
  let d := d - 1461 * n4
  let n1 := d / 365
  let n1 := n1 - n1 / 4
  let d := d - 365 * n1
  (400 * n400 + 100 * n100 + 4 * n4 + n1 + 1, d)

/-- The month estimate of Go `absDate` on a zero-based day of a 365-day year:
the estimate `day / 31` is at most one month too low and is adjusted with
`daysBefore`. -/
def monthOf (day : Int) : Nat × Int :=
  let month := (day / 31).toNat
  let stop := daysBefore (month + 1)
  if day ≥ stop then (month + 2, day - stop + 1)
  else (month + 1, day - daysBefore month + 1)

/-- Month and day of the month from the year and the zero-based day of the
year (the second half of Go `absDate`): in a leap year February 29 is
answered directly and the days after it are shifted down by one. -/
def monthDay (year : Int) (yday : Int) : Nat × Int :=
  if isLeap year = true ∧ yday = 31 + 29 - 1 then (2, 29)
  else monthOf (if isLeap year = true ∧ yday > 31 + 29 - 1 then yday - 1 else yday)

/-- Go `Time.Date()` on a UTC day number: year, month, day of the month. -/
def civil (days : Int) : Int × Nat × Int :=
  let yd := yearDay days
  let md := monthDay yd.1 yd.2
  (yd.1, md.1, md.2)

/-- The civil dates of the calendar: a month in 1..12 and a day in
1..`daysIn month year`. -/
def validCivil (year : Int) (month : Nat) (day : Int) : Prop :=
  1 ≤ month ∧ month ≤ 12 ∧ 1 ≤ day ∧ day ≤ daysIn month year

instance (year : Int) (month : Nat) (day : Int) : Decidable (validCivil year month day) := by
  unfold validCivil
  infer_instance

/-- The calendar day after a civil date: the next day of the month, or the
first of the next month after the last day of a month, or January 1 of the
next year after December 31. -/
def nextCivil (year : Int) (month : Nat) (day : Int) : Int × Nat × Int :=
  if day < daysIn month year then (year, month, day + 1)
  else if month < 12 then (year, month + 1, 1)
  else (year + 1, 1, 1)

/-- Go `appendInt`: the decimal digits of `x`, zero-padded on the left to
`width` digits, after a minus sign when `x` is negative. -/
def appendInt (x : Int) (width : Nat) : List Char :=
  let digits := Nat.toDigits 10 x.natAbs
  (if x < 0 then ['-'] else []) ++ List.replicate (width - digits.length) '0' ++ digits

/-- Layout `2006-01-02` applied to a civil date. -/
def formatCivil (year : Int) (month : Nat) (day : Int) : String :=
  String.mk (appendInt year 4 ++ ['-'] ++ appendInt month 2 ++ ['-'] ++ appendInt day 2)

/-- The day number shown by the presentation form of `t`: the UTC day of
`t.sec + t.offset`. -/
def Time.localDay (t : Time) : Int := (t.sec + t.offset) / 86400

/-- The UTC day number of the instant of `t`. -/
def Time.utcDay (t : Time) : Int := t.sec / 86400

/-- Go `t.Format("2006-01-02")`: the civil date of `t` in its own location. -/
def Time.FormatDate (t : Time) : String :=
  let c := civil t.localDay
  formatCivil c.1 c.2.1 c.2.2

/-- Go `t.Format("2006-01-02 15:04")`: date, hour and minute of `t` in its
own location. -/
def Time.FormatDateTime (t : Time) : String :=
  let sod := (t.sec + t.offset) % 86400
  String.mk (t.FormatDate.data ++ [' '] ++ appendInt (sod / 3600) 2 ++ [':']
    ++ appendInt (sod % 3600 / 60) 2)

/-- Go `time.Hour`, a duration, in seconds. -/
def Hour : Int := 3600

/-- Seconds from Go's zero time 0001-01-01T00:00:00Z to the Unix epoch. -/
def unixToInternal : Int := 62135596800

/-- Go `t.Truncate(d)` for a duration `d` of whole seconds: `t` rounded down
to a multiple of `d` since the zero time.  Truncate works on the time as an
absolute duration since the zero time, not on its presentation form: for
`d = 24 * Hour` the result is the last midnight UTC at or before `t`, still
presented in the location of `t`. -/
def Time.Truncate (t : Time) (d : Int) : Time :=
  if d ≤ 0 then t
  else { sec := t.sec - (t.sec + unixToInternal) % d, offset := t.offset }

/-- The day part of Go `Date(year, month, day, 0, 0, 0, 0, UTC)`: a month
outside 1..12 is first normalised into the year, then the days are counted
as in `dateToDays`. -/
def Date (year : Int) (month : Int) (day : Int) : Int :=
  let m := month - 1
  dateToDays (year + m / 12) ((m % 12).toNat + 1) day

/-- Go `t.AddDate(years, months, days)`: the date and clock of `t` are read in
its location, the arguments are added to year, month and day, and the result
is rebuilt with `Date` in the same location. -/
def Time.AddDate (t : Time) (years months days : Int) : Time :=
  let abs := t.sec + t.offset
  let c := civil (abs / 86400)
  { sec := Date (c.1 + years) (c.2.1 + months) (c.2.2 + days) * 86400 + abs % 86400
      - t.offset,
    offset := t.offset }

/-- Go `t.Before(u)`: comparison of instants. -/
def Time.Before (t u : Time) : Bool := decide (t.sec < u.sec)

/-- Go `t.After(u)`: comparison of instants. -/
def Time.After (t u : Time) : Bool := decide (t.sec > u.sec)

/-- Go `isDigit`. -/
def isDigit (c : Char) : Bool := decide ('0' ≤ c ∧ c ≤ '9')

/-- The value of a decimal digit. -/
def digitVal (c : Char) : Nat := c.toNat - '0'.toNat

/-- The civil date read by `time.Parse("2006-01-02", value)`: four digits,
`-`, two digits, `-`, two digits and nothing else, with the month in 1..12
and the day in 1..`daysIn month year`; `none` when Parse reports an error. -/
def parseCivil (value : String) : Option (Int × Nat × Int) :=
  match value.data with
  | [y1, y2, y3, y4, s1, m1, m2, s2, d1, d2] =>
    if isDigit y1 && isDigit y2 && isDigit y3 && isDigit y4 && s1 == '-'
        && isDigit m1 && isDigit m2 && s2 == '-' && isDigit d1 && isDigit d2 then
      let year : Int :=
        (1000 * digitVal y1 + 100 * digitVal y2 + 10 * digitVal y3 + digitVal y4 : Nat)
      let month := 10 * digitVal m1 + digitVal m2
      let day : Int := (10 * digitVal d1 + digitVal d2 : Nat)
      if month = 0 ∨ 12 < month then none
      else if day < 1 ∨ day > daysIn month year then none
      else some (year, month, day)
    else none
  | _ => none

/-- Go `time.Parse("2006-01-02", value)`: midnight UTC of the date read, or
`none` when Parse reports an error. -/
def Parse (value : String) : Option Time :=
  match parseCivil value with
  | some (year, month, day) => some { sec := Date year month day * 86400, offset := 0 }
  | none => none

end time

namespace db

/-! ## The `tasks` table (`db/db.go`, `createSchema`) -/

/-- One row of table `tasks`: `id INTEGER PRIMARY KEY AUTOINCREMENT`,
`date TEXT NOT NULL`, `title TEXT NOT NULL`, `description TEXT`,
`completed INTEGER DEFAULT 0`, `notes TEXT`, `carried_from_date TEXT`,
`created_at DATETIME DEFAULT CURRENT_TIMESTAMP` (kept as seconds since the
Unix epoch).  A nullable TEXT column is an `Option String`, `none` for
NULL. -/
structure Row where
  id : Int
  date : String
  title : String
  description : Option String
  completed : Int
  notes : Option String
  carried_from_date : Option String
  created_at : Int
  deriving DecidableEq, Repr

/-- The database behind the global handle `db.DB`: the rows of `tasks` in
rowid order, and `seq`, the largest rowid the table has ever held (the
`sqlite_sequence` entry kept for an AUTOINCREMENT key). -/
structure Store where
  rows : List Row
  seq : Int
  deriving DecidableEq, Repr

/-- The table right after `createSchema` on a fresh file. -/
def Store.empty : Store := { rows := [], seq := 0 }

/-- The largest rowid among `rows`, 0 for no rows. -/
def maxId : List Row → Int
  | [] => 0
  | r :: rs => max r.id (maxId rs)

/-- The rowid an AUTOINCREMENT insert assigns: one more than the largest
rowid that has ever existed in the table. -/
def nextRowid (s : Store) : Int := max s.seq (maxId s.rows) + 1

/-- The rows in the order of `ORDER BY created_at ASC`; rows with equal
`created_at` keep their rowid order. -/
def orderByCreatedAt (rows : List Row) : List Row :=
  rows.insertionSort (fun a b => a.created_at ≤ b.created_at)

/-- The rows after `UPDATE tasks SET ... WHERE id = ?`: `set` is applied to
every row whose id is `id`, the other rows are kept. -/
def updateWhere (id : Int) (set : Row → Row) (rows : List Row) : List Row :=
  rows.map (fun r => if r.id = id then set r else r)

/-- What the driver may report instead of running a statement: statement
number `k` of a request fails with a storage error when the oracle answers
`true` at `k`, and then has no effect. -/
abbrev Faults := Nat → Bool

/-- The oracle of a storage engine that never fails. -/
def reliable : Faults := fun _ => false

/-- A Go `error` value as returned by `database/sql`. -/
inductive Error where
  | ErrNoRows
  | driver
  deriving DecidableEq, Repr

end db

namespace models

open db

/-! ## `models/task.go` -/

/-- Go struct `Task`. -/
structure Task where
  ID : Int
  Date : String
  Title : String
  Description : String
  Completed : Bool
  Notes : String
  CarriedFromDate : String
  CreatedAt : Int
  deriving DecidableEq, Repr

/-- Seconds since the Unix epoch of Go's zero `time.Time`
(0001-01-01T00:00:00Z), the `CreatedAt` of a `Task` literal that does not
set it. -/
def zeroTime : Int := -62135596800

/-- The `Scan` of one result row followed by the conversions of
`GetTaskByID`: `completed == 1`, and the empty string for a NULL
`description`, `notes` or `carried_from_date`. -/
def scan (r : Row) : Task :=
  { ID := r.id
    Date := r.date
    Title := r.title
    Description := r.description.getD ""
    Completed := r.completed == 1
    Notes := r.notes.getD ""
    CarriedFromDate := r.carried_from_date.getD ""
    CreatedAt := r.created_at }

/-- The row written by the INSERT of `Task.Create`, given the rowid and the
value of CURRENT_TIMESTAMP. -/
def insertedRow (t : Task) (id : Int) (createdAt : Int) : Row :=
  { id := id
    date := t.Date
    title := t.Title
    description := some t.Description
    completed := if t.Completed = true then 1 else 0
    notes := some t.Notes
    carried_from_date := if t.CarriedFromDate ≠ "" then some t.CarriedFromDate else none
    created_at := createdAt }

/-- Go `(t *Task) Create`: inserts a row and stores the new rowid in `t.ID`.
`fault` is the driver's answer for the INSERT, `now` the clock read by
CURRENT_TIMESTAMP. -/
def Task.Create (fault : Bool) (now : time.Time) (s : Store) (t : Task) :
    Except Error (Task × Store) :=
  if fault = true then .error .driver
  else
    let id := nextRowid s
    .ok ({ t with ID := id }, { rows := s.rows ++ [insertedRow t id now.sec], seq := id })

/-- Go `GetTaskByID`: the first row with the id, scanned; `sql.ErrNoRows`
when there is none. -/
def GetTaskByID (fault : Bool) (s : Store) (id : Int) : Except Error Task :=
  if fault = true then .error .driver
  else
    match s.rows.find? (fun r => r.id == id) with
    | some r => .ok (scan r)
    | none => .error .ErrNoRows

/-- Go `GetTasksByDate`: `WHERE date = ? ORDER BY created_at ASC`. -/
def GetTasksByDate (fault : Bool) (s : Store) (date : String) : Except Error (List Task) :=
  if fault = true then .error .driver
  else .ok ((orderByCreatedAt (s.rows.filter (fun r => r.date == date))).map scan)

/-- The assignments `SET title = ?, description = ?, completed = ?, notes = ?`
of `Task.Update` with the values Go passes to `Exec`. -/
def updatedRow (t : Task) (r : Row) : Row :=
  { r with title := t.Title, description := some t.Description,
           completed := if t.Completed = true then 1 else 0, notes := some t.Notes }

/-- Go `(t *Task) Update`:
`UPDATE tasks SET title = ?, description = ?, completed = ?, notes = ? WHERE id = ?`.
The error of `Exec` is returned as it is; a statement that matches no row is
not an error. -/
def Task.Update (fault : Bool) (s : Store) (t : Task) : Except Error Store :=
  if fault = true then .error .driver
  else .ok { s with rows := updateWhere t.ID (updatedRow t) s.rows }

/-- The assignment `SET completed = CASE WHEN completed = 0 THEN 1 ELSE 0 END`. -/
def toggledRow (r : Row) : Row :=
  { r with completed := if r.completed = 0 then 1 else 0 }

/-- Go `ToggleTaskComplete`:
`UPDATE tasks SET completed = CASE WHEN completed = 0 THEN 1 ELSE 0 END WHERE id = ?`. -/
def ToggleTaskComplete (fault : Bool) (s : Store) (id : Int) : Except Error Store :=
  if fault = true then .error .driver
  else .ok { s with rows := updateWhere id toggledRow s.rows }

/-- Go `DeleteTask`: `DELETE FROM tasks WHERE id = ?`. -/
def DeleteTask (fault : Bool) (s : Store) (id : Int) : Except Error Store :=
  if fault = true then .error .driver
  else .ok { s with rows := s.rows.filter (fun r => r.id != id) }

/-- Go `GetUncompletedTasksByDate`:
`WHERE date = ? AND completed = 0 ORDER BY created_at ASC`. -/
def GetUncompletedTasksByDate (fault : Bool) (s : Store) (date : String) :
    Except Error (List Task) :=
  if fault = true then .error .driver
  else
    .ok ((orderByCreatedAt
      (s.rows.filter (fun r => r.date == date && r.completed == 0))).map scan)

end models

namespace handlers

open db models

/-! ## `handlers/task.go` and `handlers/day.go`

Every handler takes the driver oracle, the store and its form values and
returns the response written to the gin context with the store it leaves.
`now` is the value of `time.Now()` during the request; the statements of one
request are numbered from 0 in the order the handler issues them. -/

/-- What a handler writes to the gin context: `c.Redirect(code, location)` or
`c.HTML(code, "error.html", gin.H{"error": message})`. -/
inductive Response where
  | Redirect (code : Nat) (location : String)
  | HTML (code : Nat) (message : String)
  deriving DecidableEq, Repr

/-- Go `http.StatusFound`. -/
def StatusFound : Nat := 302
/-- Go `http.StatusBadRequest`. -/
def StatusBadRequest : Nat := 400
/-- Go `http.StatusForbidden`. -/
def StatusForbidden : Nat := 403
/-- Go `http.StatusNotFound`. -/
def StatusNotFound : Nat := 404
/-- Go `http.StatusInternalServerError`. -/
def StatusInternalServerError : Nat := 500

/-- Go `isWithinEditWindow`. -/
def isWithinEditWindow (now : time.Time) (taskDate : String) : Bool :=
  let today := now.Truncate (24 * time.Hour)
  match time.Parse taskDate with
  | none => false
  | some parsed =>
    let dayBefore := today.AddDate 0 0 (-1)
    let dayAfter := today.AddDate 0 0 1
    !parsed.Before dayBefore && !parsed.After dayAfter

/-- Go `CreateTask` (POST /tasks). -/
def CreateTask (f : Faults) (now : time.Time) (s : Store) (date title description : String) :
    Response × Store :=
  if title = "" then (.HTML StatusBadRequest "Title is required", s)
  else
    let date := if date = "" then now.FormatDate else date
    if isWithinEditWindow now date = false then
      (.HTML StatusForbidden "Can only create tasks within 1 day of today", s)
    else
      let task : Task :=
        { ID := 0, Date := date, Title := title, Description := description,
          Completed := false, Notes := "", CarriedFromDate := "", CreatedAt := zeroTime }
      match task.Create (f 0) now s with
      | .error _ => (.HTML StatusInternalServerError "Failed to create task", s)
      | .ok (_, s') => (.Redirect StatusFound ("/day/" ++ date), s')

/-- Go `ToggleTask` (POST /tasks/:id/toggle).  `idParam` is the result of
`strconv.Atoi(c.Param("id"))`, `none` when Atoi reports an error. -/
def ToggleTask (f : Faults) (s : Store) (idParam : Option Int) : Response × Store :=
  match idParam with
  | none => (.HTML StatusBadRequest "Invalid task ID", s)
  | some id =>
    match GetTaskByID (f 0) s id with
    | .error _ => (.HTML StatusNotFound "Task not found", s)
    | .ok task =>
      match ToggleTaskComplete (f 1) s id with
      | .error _ => (.HTML StatusInternalServerError "Failed to toggle task", s)
      | .ok s' => (.Redirect StatusFound ("/day/" ++ task.Date), s')

/-- Go `AddNotes` (POST /tasks/:id/notes). -/
def AddNotes (f : Faults) (now : time.Time) (s : Store) (idParam : Option Int)
    (newNotes : String) : Response × Store :=
  match idParam with
  | none => (.HTML StatusBadRequest "Invalid task ID", s)
  | some id =>
    if newNotes = "" then
      match GetTaskByID (f 0) s id with
      | .ok task => (.Redirect StatusFound ("/day/" ++ task.Date), s)
      | .error _ => (.Redirect StatusFound "/", s)
    else
      match GetTaskByID (f 0) s id with
      | .error _ => (.HTML StatusNotFound "Task not found", s)
      | .ok task =>
        let timestamp := now.FormatDateTime
        let notes := if task.Notes ≠ "" then task.Notes ++ "\n\n" else task.Notes
        let task := { task with Notes := notes ++ ("[" ++ timestamp ++ "] " ++ newNotes) }
        match task.Update (f 1) s with
        | .error _ => (.HTML StatusInternalServerError "Failed to add notes", s)
        | .ok s' => (.Redirect StatusFound ("/day/" ++ task.Date), s')

/-- Go `DeleteTask` (POST /tasks/:id/delete). -/
def DeleteTask (f : Faults) (s : Store) (idParam : Option Int) : Response × Store :=
  match idParam with
  | none => (.HTML StatusBadRequest "Invalid task ID", s)
  | some id =>
    match GetTaskByID (f 0) s id with
    | .error _ => (.HTML StatusNotFound "Task not found", s)
    | .ok task =>
      let date := task.Date
      match models.DeleteTask (f 1) s id with
      | .error _ => (.HTML StatusInternalServerError "Failed to delete task", s)
      | .ok s' => (.Redirect StatusFound ("/day/" ++ date), s')

/-- Go `UpdateTask` (POST /tasks/:id/edit). -/
def UpdateTask (f : Faults) (now : time.Time) (s : Store) (idParam : Option Int)
    (newTitle newDescription : String) : Response × Store :=
  match idParam with
  | none => (.HTML StatusBadRequest "Invalid task ID", s)
  | some id =>
    match GetTaskByID (f 0) s id with
    | .error _ => (.HTML StatusNotFound "Task not found", s)
    | .ok task =>
      if isWithinEditWindow now task.Date = false then
        (.HTML StatusForbidden "Can only edit tasks within 1 day of today", s)
      else if newTitle = "" then (.HTML StatusBadRequest "Title is required", s)
      else
        let task := { task with Title := newTitle, Description := newDescription }
        match task.Update (f 1) s with
        | .error _ => (.HTML StatusInternalServerError "Failed to update task", s)
        | .ok s' => (.Redirect StatusFound ("/day/" ++ task.Date), s')

/-- The task `PrepareNextDay` builds from a task it carries over. -/
def carriedTask (nextDate dateParam : String) (task : Task) : Task :=
  { ID := 0, Date := nextDate, Title := task.Title, Description := task.Description,
    Completed := false, Notes := "", CarriedFromDate := dateParam, CreatedAt := zeroTime }

/-- The loop of `PrepareNextDay` over the uncompleted tasks: statement `k` is
the insert for the next task; a failed insert is logged and skipped.  The
result is `copiedCount` and the store. -/
def copyTasks (f : Faults) (now : time.Time) (nextDate dateParam : String) :
    Nat → List Task → Nat × Store → Nat × Store
  | _, [], acc => acc
  | k, task :: rest, (copiedCount, s) =>
    match (carriedTask nextDate dateParam task).Create (f k) now s with
    | .error _ => copyTasks f now nextDate dateParam (k + 1) rest (copiedCount, s)
    | .ok (_, s') => copyTasks f now nextDate dateParam (k + 1) rest (copiedCount + 1, s')

/-- Go `PrepareNextDay` (POST /day/:date/prepare-next).  The second component
is `copiedCount`, the number the handler logs as carried over (0 when it
returns before the loop). -/
def PrepareNextDay (f : Faults) (now : time.Time) (s : Store) (dateParam : String) :
    Response × Nat × Store :=
  match time.Parse dateParam with
  | none => (.HTML StatusBadRequest "Invalid date format", 0, s)
  | some currentDate =>
    match GetUncompletedTasksByDate (f 0) s dateParam with
    | .error _ => (.HTML StatusInternalServerError "Failed to get tasks", 0, s)
    | .ok tasks =>
      let nextDate := (currentDate.AddDate 0 0 1).FormatDate
      let r := copyTasks f now nextDate dateParam 1 tasks (0, s)
      (.Redirect StatusFound ("/day/" ++ nextDate), r.1, r.2)

/-- One request to the service, with its arguments. -/
inductive Request where
  | CreateTask (date title description : String)
  | UpdateTask (idParam : Option Int) (newTitle newDescription : String)
  | ToggleTask (idParam : Option Int)
  | AddNotes (idParam : Option Int) (newNotes : String)
  | DeleteTask (idParam : Option Int)
  | PrepareNextDay (dateParam : String)
  deriving DecidableEq, Repr

/-- The store after the router has dispatched one request. -/
def serve (f : Faults) (now : time.Time) (s : Store) : Request → Store
  | .CreateTask date title description => (CreateTask f now s date title description).2
  | .UpdateTask idParam newTitle newDescription =>
    (UpdateTask f now s idParam newTitle newDescription).2
  | .ToggleTask idParam => (ToggleTask f s idParam).2
  | .AddNotes idParam newNotes => (AddNotes f now s idParam newNotes).2
  | .DeleteTask idParam => (DeleteTask f s idParam).2
  | .PrepareNextDay dateParam => (PrepareNextDay f now s dateParam).2.2

end handlers

deriving instance DecidableEq for Except

namespace db

/-- The invariant of the table under the statements of `models/task.go`:
column `completed` holds 0 or 1 in every row. -/
def Store.Valid (s : Store) : Prop := ∀ r ∈ s.rows, r.completed = 0 ∨ r.completed = 1

instance (s : Store) : Decidable s.Valid := by
  unfold Store.Valid
  infer_instance

instance : IsTotal Row (fun a b => a.created_at ≤ b.created_at) :=
  ⟨fun a b => le_total a.created_at b.created_at⟩

instance : IsTrans Row (fun a b => a.created_at ≤ b.created_at) :=
  ⟨fun _ _ _ h1 h2 => le_trans h1 h2⟩

/-- The rows of the table whose id is not `id`, in table order. -/
def Store.others (s : Store) (id : Int) : List Row := s.rows.filter (fun r => r.id != id)

/-- The ids of the table, in table order. -/
def Store.ids (s : Store) : List Int := s.rows.map (fun r => r.id)

end db

namespace handlers

open db models

/-- The rows the loop of `PrepareNextDay` appends when no insert fails: one
per task, in the order of the tasks, with consecutive rowids from `id`. -/
def carriedRows (now : time.Time) (nextDate dateParam : String) : Int → List Task → List Row
  | _, [] => []
  | id, task :: rest =>
    insertedRow (carriedTask nextDate dateParam task) id now.sec
      :: carriedRows now nextDate dateParam (id + 1) rest

/-- A run of task creations: `Task.Create` for each task in turn, each with
the clock of its own moment, the storage engine accepting every insert. -/
def createAll : List (time.Time × Task) → Store → Store
  | [], s => s
  | (now, t) :: rest, s =>
    match t.Create false now s with
    | .ok (_, s') => createAll rest s'
    | .error _ => createAll rest s

/-- The rows of a run of creations in the order of the run: the row of each
task with the clock of its insert, the rowids consecutive from `id`. -/
def insertedRows : Int → List (time.Time × Task) → List Row
  | _, [] => []
  | id, (now, t) :: rest => insertedRow t id now.sec :: insertedRows (id + 1) rest

/-- A history of the service: the requests served one after the other, each
with its own driver oracle and clock. -/
def serveAll : List (Faults × time.Time × Request) → Store → Store
  | [], s => s
  | (f, now, req) :: rest, s => serveAll rest (serve f now s req)

end handlers

namespace db

/-- The invariant of the data model on titles: no row of the table has an
empty title. -/
def Store.Titled (s : Store) : Prop := ∀ r ∈ s.rows, r.title ≠ ""

instance (s : Store) : Decidable s.Titled := by
  unfold Store.Titled
  infer_instance

end db

namespace examples

open db models handlers

/-! ## Concrete clocks and stores used to evaluate the handlers -/

/-- The clock 2025-06-10 20:00 in a zone eight hours west of UTC
(2025-06-11 04:00 UTC). -/
def pacificEvening : time.Time := { sec := 1749614400, offset := -28800 }

/-- The clock 2025-06-10 12:00 UTC, presented in UTC. -/
def utcNoon : time.Time := { sec := 1749556800, offset := 0 }

/-- A table holding one uncompleted task dated 2020-01-01. -/
def oldStore : Store :=
  { rows := [{ id := 1, date := "2020-01-01", title := "A", description := some "",
               completed := 0, notes := some "", carried_from_date := none,
               created_at := 1577880000 }],
    seq := 1 }

/-- A table holding, for 2025-06-10, one completed and one uncompleted
task. -/
def juneStore : Store :=
  { rows := [{ id := 1, date := "2025-06-10", title := "done", description := some "",
               completed := 1, notes := some "", carried_from_date := none,
               created_at := 1749540000 },
             { id := 2, date := "2025-06-10", title := "open", description := some "d",
               completed := 0, notes := some "[2025-06-10 08:00] n",
               carried_from_date := none, created_at := 1749540001 }],
    seq := 2 }

/-- A task for 2025-06-10 as a form would create it. -/
def juneTask (title : String) : Task :=
  { ID := 0, Date := "2025-06-10", Title := title, Description := "", Completed := false,
    Notes := "", CarriedFromDate := "", CreatedAt := zeroTime }

/-- Two creations for 2025-06-10 between which the clock is set back by 100
seconds. -/
def clockSetBack : List (time.Time × Task) :=
  [({ sec := 1749556800, offset := 0 }, juneTask "first"),
   ({ sec := 1749556700, offset := 0 }, juneTask "second")]

end examples
namespace time

theorem isLeap_iff (y : Int) :
    isLeap y = true ↔ y % 4 = 0 ∧ (y % 100 ≠ 0 ∨ y % 400 = 0) := by
  simp [isLeap]

theorem yearDay_fst (n : Int) : ∃ q b c e r : Int,
    0 ≤ b ∧ b ≤ 3 ∧ 0 ≤ c ∧ c ≤ 24 ∧ 0 ≤ e ∧ e ≤ 3 ∧ 0 ≤ r ∧
    (r ≤ 364 ∨ (r = 365 ∧ e = 3 ∧ (c ≠ 24 ∨ b = 3))) ∧
    n + 719162 = 146097 * q + 36524 * b + 1461 * c + 365 * e + r ∧
    yearDay n = (400 * q + 100 * b + 4 * c + e + 1, r) := by
  refine ⟨(n + 719162) / 146097, _, _, _, _, ?_, ?_, ?_, ?_, ?_, ?_, ?_, ?_, ?_, rfl⟩
  all_goals omega

theorem yearDay_spec (n : Int) :
    daysSinceEpoch (yearDay n).1 + (yearDay n).2 = n ∧ 0 ≤ (yearDay n).2
      ∧ (yearDay n).2 < (if isLeap (yearDay n).1 = true then 366 else 365) := by
  obtain ⟨q, b, c, e, r, hb0, hb3, hc0, hc24, he0, he3, hr0, hr, hn, hy⟩ := yearDay_fst n
  rw [hy]
  simp only [daysSinceEpoch, isLeap_iff]
  refine ⟨by omega, hr0, ?_⟩
  split <;> omega

theorem monthOf_spec (day : Int) (h0 : 0 ≤ day) (h1 : day < 365) :
    1 ≤ (monthOf day).1 ∧ (monthOf day).1 ≤ 12 ∧ 1 ≤ (monthOf day).2
      ∧ (monthOf day).2 ≤ daysBefore (monthOf day).1 - daysBefore ((monthOf day).1 - 1)
      ∧ daysBefore ((monthOf day).1 - 1) + ((monthOf day).2 - 1) = day
      ∧ ((monthOf day).1 ≤ 2 ↔ day < 59) := by
  have hk : ((day / 31).toNat : Int) = day / 31 := Int.toNat_of_nonneg (by omega)
  have hk11 : (day / 31).toNat ≤ 11 := by omega
  simp only [monthOf]
  generalize (day / 31).toNat = k at hk hk11
  interval_cases k <;> simp only [daysBefore] <;> split <;> simp <;> omega

theorem monthDay_spec (y yd : Int) (h0 : 0 ≤ yd)
    (h1 : yd < (if isLeap y = true then 366 else 365)) :
    1 ≤ (monthDay y yd).1 ∧ (monthDay y yd).1 ≤ 12 ∧ 1 ≤ (monthDay y yd).2
      ∧ (monthDay y yd).2 ≤ daysIn (monthDay y yd).1 y
      ∧ daysBefore ((monthDay y yd).1 - 1)
          + (if isLeap y = true ∧ 3 ≤ (monthDay y yd).1 then 1 else 0)
          + ((monthDay y yd).2 - 1) = yd := by
  by_cases hl : isLeap y = true
  · rw [if_pos hl] at h1
    by_cases h59 : yd = 59
    · subst h59
      simp [monthDay, hl, daysIn, daysBefore]
    · by_cases hgt : yd > 59
      · obtain ⟨a1, a2, a3, a4, a5, a6⟩ := monthOf_spec (yd - 1) (by omega) (by omega)
        have hm : 3 ≤ (monthOf (yd - 1)).1 := by omega
        have hm2 : (monthOf (yd - 1)).1 ≠ 2 := by omega
        simp only [monthDay, hl, true_and, show ¬ (yd = 31 + 29 - 1) by omega, if_false,
          show yd > 31 + 29 - 1 by omega, if_true, daysIn, hm, hm2, false_and]
        omega
      · obtain ⟨a1, a2, a3, a4, a5, a6⟩ := monthOf_spec yd (by omega) (by omega)
        have hm : ¬ 3 ≤ (monthOf yd).1 := by omega
        simp only [monthDay, hl, true_and, show ¬ (yd = 31 + 29 - 1) by omega, if_false,
          show ¬ yd > 31 + 29 - 1 by omega, daysIn, hm, and_true]
        refine ⟨a1, a2, a3, ?_, by omega⟩
        split
        · rename_i h2
          rw [h2] at a4
          simp only [daysBefore] at a4
          omega
        · exact a4
  · rw [if_neg hl] at h1
    obtain ⟨a1, a2, a3, a4, a5, a6⟩ := monthOf_spec yd h0 h1
    simp only [monthDay, hl, Bool.false_eq_true, false_and, if_false, daysIn, and_false]
    exact ⟨a1, a2, a3, a4, by omega⟩

theorem dateToDays_civil (n : Int) :
    dateToDays (civil n).1 (civil n).2.1 (civil n).2.2 = n := by
  obtain ⟨h1, h2, h3⟩ := yearDay_spec n
  obtain ⟨a1, a2, a3, a4, a5⟩ := monthDay_spec (yearDay n).1 (yearDay n).2 h2 h3
  simp only [civil, dateToDays]
  omega

theorem dateToDays_add (y : Int) (m : Nat) (d k : Int) :
    dateToDays y m (d + k) = dateToDays y m d + k := by
  simp only [dateToDays]; omega


theorem mixed_radix_unique (q b c e r q0 b0 c0 e0 r0 : Int)
    (hb : 0 ≤ b ∧ b ≤ 3) (hc : 0 ≤ c ∧ c ≤ 24) (he : 0 ≤ e ∧ e ≤ 3) (hr0 : 0 ≤ r)
    (hr : r ≤ 364 ∨ (r = 365 ∧ e = 3 ∧ (c ≠ 24 ∨ b = 3)))
    (hb' : 0 ≤ b0 ∧ b0 ≤ 3) (hc' : 0 ≤ c0 ∧ c0 ≤ 24) (he' : 0 ≤ e0 ∧ e0 ≤ 3) (hr0' : 0 ≤ r0)
    (hr' : r0 ≤ 364 ∨ (r0 = 365 ∧ e0 = 3 ∧ (c0 ≠ 24 ∨ b0 = 3)))
    (h : 146097 * q + 36524 * b + 1461 * c + 365 * e + r
      = 146097 * q0 + 36524 * b0 + 1461 * c0 + 365 * e0 + r0) :
    q = q0 ∧ b = b0 ∧ c = c0 ∧ e = e0 ∧ r = r0 := by
  have hq : q = q0 := by omega
  subst hq
  have hbb : b = b0 := by omega
  subst hbb
  have hcc : c = c0 := by omega
  subst hcc
  have hee : e = e0 := by omega
  subst hee
  exact ⟨rfl, rfl, rfl, rfl, by omega⟩

theorem yearDay_daysSinceEpoch (y yd : Int) (h0 : 0 ≤ yd)
    (h1 : yd < (if isLeap y = true then 366 else 365)) :
    yearDay (daysSinceEpoch y + yd) = (y, yd) := by
  simp only [isLeap_iff] at h1
  obtain ⟨q, b, c, e, r, hb0, hb3, hc0, hc24, he0, he3, hr0, hr, hn, hy⟩ :=
    yearDay_fst (daysSinceEpoch y + yd)
  rw [hy]
  simp only [daysSinceEpoch] at hn
  have hY : y - 1 = 400 * ((y - 1) / 400) + 100 * ((y - 1) % 400 / 100)
      + 4 * ((y - 1) % 100 / 4) + (y - 1) % 4 := by omega
  have hD : 365 * (y - 1) + (y - 1) / 4 - (y - 1) / 100 + (y - 1) / 400
      = 146097 * ((y - 1) / 400) + 36524 * ((y - 1) % 400 / 100)
        + 1461 * ((y - 1) % 100 / 4) + 365 * ((y - 1) % 4) := by omega
  have hb0' : 0 ≤ (y - 1) % 400 / 100 ∧ (y - 1) % 400 / 100 ≤ 3 := by omega
  have hc0' : 0 ≤ (y - 1) % 100 / 4 ∧ (y - 1) % 100 / 4 ≤ 24 := by omega
  have he0' : 0 ≤ (y - 1) % 4 ∧ (y - 1) % 4 ≤ 3 := by omega
  have hyd : yd ≤ 364 ∨ (yd = 365 ∧ (y - 1) % 4 = 3
      ∧ ((y - 1) % 100 / 4 ≠ 24 ∨ (y - 1) % 400 / 100 = 3)) := by
    split at h1 <;> omega
  rw [hD] at hn
  obtain ⟨e1, e2, e3, e4, e5⟩ := mixed_radix_unique q b c e r ((y - 1) / 400)
    ((y - 1) % 400 / 100) ((y - 1) % 100 / 4) ((y - 1) % 4) yd ⟨hb0, hb3⟩ ⟨hc0, hc24⟩
    ⟨he0, he3⟩ hr0 hr hb0' hc0' he0' h0 hyd (by omega)
  rw [e1, e2, e3, e4, e5, Prod.mk.injEq]
  exact ⟨by omega, rfl⟩


theorem monthOf_daysBefore (m : Nat) (d : Int) (hm1 : 1 ≤ m) (hm12 : m ≤ 12) (hd1 : 1 ≤ d)
    (hd : d ≤ daysBefore m - daysBefore (m - 1)) :
    monthOf (daysBefore (m - 1) + (d - 1)) = (m, d) := by
  have key : ∀ day : Int, day = daysBefore (m - 1) + (d - 1) → monthOf day = (m, d) := by
    intro day hday
    have hk : ((day / 31).toNat : Int) = day / 31 := by
      apply Int.toNat_of_nonneg
      interval_cases m <;> simp only [daysBefore] at hday hd <;> omega
    have hk11 : (day / 31).toNat ≤ 11 := by
      interval_cases m <;> simp only [daysBefore] at hday hd <;> omega
    simp only [monthOf]
    generalize (day / 31).toNat = k at hk hk11
    interval_cases m <;> simp only [daysBefore] at hday hd <;> interval_cases k <;>
      simp only [daysBefore] <;> first | omega | (split <;> simp <;> omega)
  exact key _ rfl

end time

namespace time

theorem parseCivil_valid (value : String) (y : Int) (m : Nat) (d : Int)
    (h : parseCivil value = some (y, m, d)) : validCivil y m d := by
  unfold parseCivil at h
  split at h
  · split at h
    · dsimp only at h
      split at h
      · exact absurd h (by simp)
      · split at h
        · exact absurd h (by simp)
        · simp only [Option.some.injEq, Prod.mk.injEq] at h
          obtain ⟨rfl, rfl, rfl⟩ := h
          simp only [validCivil]
          omega
    · exact absurd h (by simp)
  · exact absurd h (by simp)

theorem parseCivil_ne_empty (value : String) (c : Int × Nat × Int)
    (h : parseCivil value = some c) : value ≠ "" := by
  rintro rfl
  simp [parseCivil] at h

theorem Date_eq_dateToDays (y : Int) (m : Nat) (d : Int) (h1 : 1 ≤ m) (h12 : m ≤ 12) :
    Date y m d = dateToDays y m d := by
  have hq : ((m : Int) - 1) / 12 = 0 := by omega
  have hr : ((((m : Int) - 1) % 12).toNat + 1) = m := by omega
  simp only [Date, hq, hr, add_zero]

theorem civil_month (n : Int) : 1 ≤ (civil n).2.1 ∧ (civil n).2.1 ≤ 12 := by
  obtain ⟨_, h2, h3⟩ := yearDay_spec n
  obtain ⟨a1, a2, _⟩ := monthDay_spec (yearDay n).1 (yearDay n).2 h2 h3
  exact ⟨a1, a2⟩

theorem AddDate_sec (t : Time) (k : Int) : (t.AddDate 0 0 k).sec = t.sec + 86400 * k := by
  obtain ⟨h1, h12⟩ := civil_month ((t.sec + t.offset) / 86400)
  simp only [Time.AddDate, add_zero, Nat.cast_inj, Date_eq_dateToDays _ _ _ h1 h12,
    dateToDays_add, dateToDays_civil]
  omega

theorem Truncate_sec (t : Time) : (t.Truncate (24 * Hour)).sec = t.sec - t.sec % 86400 := by
  simp only [Time.Truncate, Hour, unixToInternal]
  rw [if_neg (by norm_num)]
  simp only
  omega

theorem Truncate_offset (t : Time) : (t.Truncate (24 * Hour)).offset = t.offset := by
  simp only [Time.Truncate, Hour]
  rw [if_neg (by norm_num)]

theorem Parse_eq_some (value : String) (t : Time) :
    Parse value = some t ↔ ∃ y m d, parseCivil value = some (y, m, d)
      ∧ t = { sec := dateToDays y m d * 86400, offset := 0 } := by
  unfold Parse
  cases h : parseCivil value with
  | none => simp
  | some c =>
    obtain ⟨y, m, d⟩ := c
    have hv := parseCivil_valid value y m d h
    simp only [Option.some.injEq, Prod.mk.injEq, Date_eq_dateToDays y m d hv.1 hv.2.1]
    constructor
    · intro ht
      exact ⟨y, m, d, ⟨rfl, rfl, rfl⟩, ht.symm⟩
    · rintro ⟨y', m', d', ⟨rfl, rfl, rfl⟩, ht⟩
      exact ht.symm

end time

namespace handlers

open db models

theorem isWithinEditWindow_iff (now : time.Time) (taskDate : String) :
    isWithinEditWindow now taskDate = true ↔
      ∃ y m d, time.parseCivil taskDate = some (y, m, d)
        ∧ now.utcDay - 1 ≤ time.dateToDays y m d ∧ time.dateToDays y m d ≤ now.utcDay + 1 := by
  unfold isWithinEditWindow
  cases h : time.Parse taskDate with
  | none =>
    simp only [Bool.false_eq_true, false_iff, not_exists, not_and]
    intro y m d hp
    have : time.Parse taskDate = some { sec := time.dateToDays y m d * 86400, offset := 0 } :=
      (time.Parse_eq_some _ _).2 ⟨y, m, d, hp, rfl⟩
    rw [h] at this
    exact absurd this (by simp)
  | some parsed =>
    obtain ⟨y, m, d, hp, rfl⟩ := (time.Parse_eq_some _ _).1 h
    simp only [time.Time.Before, time.Time.After, time.AddDate_sec, time.Truncate_sec,
      time.Time.utcDay, Bool.and_eq_true, Bool.not_eq_true', decide_eq_false_iff_not]
    constructor
    · intro hw
      exact ⟨y, m, d, hp, by omega, by omega⟩
    · rintro ⟨y', m', d', hp', h1, h2⟩
      rw [hp] at hp'
      simp only [Option.some.injEq, Prod.mk.injEq] at hp'
      obtain ⟨rfl, rfl, rfl⟩ := hp'
      constructor <;> omega

end handlers

namespace examples

open db models handlers

/-- C1, evaluated where the local day and the UTC day differ: at 20:00 on
2025-06-10 in a zone eight hours west of UTC the service's own "today"
(`time.Now().Format("2006-01-02")`) is 2025-06-10, yet `isWithinEditWindow`
rejects 2025-06-09 (today-1) and accepts 2025-06-12 (today+2). -/
theorem isWithinEditWindow_pacificEvening :
    pacificEvening.FormatDate = "2025-06-10"
      ∧ isWithinEditWindow pacificEvening "2025-06-09" = false
      ∧ isWithinEditWindow pacificEvening "2025-06-12" = true := by
  decide

end examples

namespace db

theorem find?_id_mem (rows : List Row) (id : Int) (r : Row)
    (h : rows.find? (fun r => r.id == id) = some r) : r ∈ rows ∧ r.id = id := by
  refine ⟨List.mem_of_find?_eq_some h, ?_⟩
  have := List.find?_some h
  simpa using this

theorem map_eq_self (g : Row → Row) (rows : List Row) (h : ∀ r ∈ rows, g r = r) :
    rows.map g = rows := by
  induction rows with
  | nil => rfl
  | cons r rs ih =>
    simp only [List.map_cons, List.cons.injEq]
    exact ⟨h r (List.mem_cons_self _ _), ih (fun r' hr' => h r' (List.mem_cons_of_mem _ hr'))⟩

theorem find?_updateWhere (id : Int) (set : Row → Row) (hset : ∀ r, (set r).id = r.id)
    (rows : List Row) (r : Row) (h : rows.find? (fun r => r.id == id) = some r) :
    (updateWhere id set rows).find? (fun r => r.id == id) = some (set r) := by
  induction rows with
  | nil => simp at h
  | cons x xs ih =>
    simp only [updateWhere, List.map_cons, List.find?_cons] at h ⊢
    by_cases hx : x.id = id
    · simp only [hx, beq_self_eq_true, Option.some.injEq] at h
      subst h
      simp [hx, hset]
    · simp only [hx, if_false, beq_iff_eq, (by simpa using hx : (x.id == id) = false)] at h ⊢
      exact ih h

theorem others_updateWhere (id : Int) (set : Row → Row) (hset : ∀ r, (set r).id = r.id)
    (rows : List Row) :
    (updateWhere id set rows).filter (fun r => r.id != id)
      = rows.filter (fun r => r.id != id) := by
  induction rows with
  | nil => rfl
  | cons r rs ih =>
    simp only [updateWhere, List.map_cons, List.filter_cons] at ih ⊢
    by_cases h : r.id = id
    · simp [h, hset, ih]
    · simp [h, ih]

theorem ids_updateWhere (id : Int) (set : Row → Row) (hset : ∀ r, (set r).id = r.id)
    (rows : List Row) :
    (updateWhere id set rows).map (fun r => r.id) = rows.map (fun r => r.id) := by
  induction rows with
  | nil => rfl
  | cons r rs ih =>
    simp only [updateWhere, List.map_cons, List.cons.injEq] at ih ⊢
    refine ⟨?_, ih⟩
    split
    · exact hset r
    · rfl

theorem updateWhere_absent (id : Int) (set : Row → Row) (rows : List Row)
    (h : ∀ r ∈ rows, r.id ≠ id) : updateWhere id set rows = rows :=
  map_eq_self _ rows (fun r hr => by simp [h r hr])

end db

namespace handlers

open db models

theorem GetTaskByID_of_find (s : Store) (id : Int) (r : Row)
    (hr : s.rows.find? (fun r => r.id == id) = some r) :
    GetTaskByID false s id = .ok (scan r) := by
  simp [GetTaskByID, hr]

theorem GetTaskByID_absent (s : Store) (id : Int) (habs : ∀ r ∈ s.rows, r.id ≠ id) :
    GetTaskByID false s id = .error .ErrNoRows := by
  have : s.rows.find? (fun r => r.id == id) = none := by
    rw [List.find?_eq_none]
    intro r hr
    simpa using habs r hr
  simp [GetTaskByID, this]

/-- The store left by a successful `ToggleTask`. -/
theorem ToggleTask_eq (f : Faults) (s : Store) (id : Int) (r : Row)
    (hf0 : f 0 = false) (hf1 : f 1 = false)
    (hr : s.rows.find? (fun r => r.id == id) = some r) :
    ToggleTask f s (some id) = (.Redirect StatusFound ("/day/" ++ r.date),
      { s with rows := updateWhere id toggledRow s.rows }) := by
  simp [ToggleTask, hf0, hf1, GetTaskByID, hr, ToggleTaskComplete, scan]

theorem toggle_frame (f : Faults) (s : Store) (id : Int) (r : Row)
    (hf0 : f 0 = false) (hf1 : f 1 = false)
    (hr : s.rows.find? (fun r => r.id == id) = some r) :
    GetTaskByID false (ToggleTask f s (some id)).2 id
        = .ok { scan r with Completed := (r.completed == 0) }
      ∧ (ToggleTask f s (some id)).2.others id = s.others id
      ∧ (ToggleTask f s (some id)).2.ids = s.ids
      ∧ (ToggleTask f s (some id)).2.seq = s.seq := by
  rw [ToggleTask_eq f s id r hf0 hf1 hr]
  refine ⟨?_, others_updateWhere id toggledRow (fun _ => rfl) s.rows,
    ids_updateWhere id toggledRow (fun _ => rfl) s.rows, rfl⟩
  simp only [GetTaskByID, Bool.false_eq_true, if_false]
  rw [find?_updateWhere id toggledRow (fun _ => rfl) s.rows r hr]
  by_cases h0 : r.completed = 0 <;> simp [scan, toggledRow, h0]

/-- C2 as amended: `ToggleTask` makes no edit-window check.  For every clock
and every stored task whose date `isWithinEditWindow` rejects, `ToggleTask`
on its id (the storage engine answering both statements) replies with the
redirect to the task's day, not with 403, and flips the task's completion
flag; the task's other fields, the rows with other ids, the order of the
table and its sequence are unchanged. -/
theorem ToggleTask_ignores_window (f : Faults) (now : time.Time) (s : Store) (id : Int)
    (r : Row) (hf0 : f 0 = false) (hf1 : f 1 = false)
    (hr : s.rows.find? (fun r => r.id == id) = some r)
    (hv : r.completed = 0 ∨ r.completed = 1)
    (_hw : isWithinEditWindow now r.date = false) :
    (ToggleTask f s (some id)).1 = .Redirect StatusFound ("/day/" ++ r.date)
      ∧ GetTaskByID false (ToggleTask f s (some id)).2 id
          = .ok { scan r with Completed := !(scan r).Completed }
      ∧ (ToggleTask f s (some id)).2.others id = s.others id
      ∧ (ToggleTask f s (some id)).2.ids = s.ids
      ∧ (ToggleTask f s (some id)).2.seq = s.seq := by
  obtain ⟨h1, h2, h3, h4⟩ := toggle_frame f s id r hf0 hf1 hr
  refine ⟨by rw [ToggleTask_eq f s id r hf0 hf1 hr], ?_, h2, h3, h4⟩
  rw [h1]
  rcases hv with h | h <;> simp [scan, h]

/-- C8: `ToggleTask` is an involution.  On a table whose `completed` column
holds 0 or 1, for every stored task, one `ToggleTask` on its id negates the
task's completion flag and changes no other field of it, no row with another
id, and neither the order nor the sequence of the table; a second
`ToggleTask` restores the flag, and indeed the whole store. -/
theorem ToggleTask_involution (f g : Faults) (s : Store) (id : Int) (r : Row)
    (hf0 : f 0 = false) (hf1 : f 1 = false) (hg0 : g 0 = false) (hg1 : g 1 = false)
    (hv : s.Valid) (hr : s.rows.find? (fun r => r.id == id) = some r) :
    GetTaskByID false (ToggleTask f s (some id)).2 id
        = .ok { scan r with Completed := !(scan r).Completed }
      ∧ (ToggleTask f s (some id)).2.others id = s.others id
      ∧ (ToggleTask f s (some id)).2.ids = s.ids
      ∧ (ToggleTask f s (some id)).2.seq = s.seq
      ∧ GetTaskByID false (ToggleTask g (ToggleTask f s (some id)).2 (some id)).2 id
          = .ok (scan r)
      ∧ (ToggleTask g (ToggleTask f s (some id)).2 (some id)).2 = s := by
  obtain ⟨hmem, hrid⟩ := find?_id_mem s.rows id r hr
  obtain ⟨h1, h2, h3, h4⟩ := toggle_frame f s id r hf0 hf1 hr
  have hflip : ({ scan r with Completed := (r.completed == 0) } : Task)
      = { scan r with Completed := !(scan r).Completed } := by
    rcases hv r hmem with h | h <;> simp [scan, h]
  have hr1 : (ToggleTask f s (some id)).2.rows.find? (fun r => r.id == id)
      = some (toggledRow r) := by
    rw [ToggleTask_eq f s id r hf0 hf1 hr]
    exact find?_updateWhere id toggledRow (fun _ => rfl) s.rows r hr
  have hback : (ToggleTask g (ToggleTask f s (some id)).2 (some id)).2 = s := by
    rw [ToggleTask_eq g _ id _ hg0 hg1 hr1, ToggleTask_eq f s id r hf0 hf1 hr]
    cases s with
    | mk rows seq =>
      simp only [updateWhere, List.map_map, Store.mk.injEq, and_true]
      apply map_eq_self
      intro x hx
      simp only [Function.comp_apply]
      by_cases hx' : x.id = id
      · have hx0 := hv x hx
        cases x
        simp only at hx' hx0
        rcases hx0 with h | h <;> simp [toggledRow, hx', h]
      · simp [hx']
  refine ⟨by rw [h1, hflip], h2, h3, h4, ?_, hback⟩
  rw [hback]
  exact GetTaskByID_of_find s id r hr

/-- C9 as amended: none of the storage-level mutators signals a missing id.
For every store and every id absent from it, `Task.Update`,
`ToggleTaskComplete` and `DeleteTask` return no error and leave the store
unchanged (their only error is the driver's, never `ErrNoRows`); the missing
id is signalled by `GetTaskByID`, which the handlers call first and answer
with 404. -/
theorem mutators_ignore_missing_id (s : Store) (t : Task) (id : Int)
    (habs : ∀ r ∈ s.rows, r.id ≠ id) (ht : t.ID = id) :
    t.Update false s = .ok s
      ∧ ToggleTaskComplete false s id = .ok s
      ∧ models.DeleteTask false s id = .ok s
      ∧ (∀ fault, t.Update fault s ≠ .error .ErrNoRows
          ∧ ToggleTaskComplete fault s id ≠ .error .ErrNoRows
          ∧ models.DeleteTask fault s id ≠ .error .ErrNoRows)
      ∧ GetTaskByID false s id = .error .ErrNoRows
      ∧ (∀ f : Faults, f 0 = false → ∀ now title description,
          UpdateTask f now s (some id) title description
              = (.HTML StatusNotFound "Task not found", s)
            ∧ ToggleTask f s (some id) = (.HTML StatusNotFound "Task not found", s)
            ∧ DeleteTask f s (some id) = (.HTML StatusNotFound "Task not found", s)) := by
  have hget := GetTaskByID_absent s id habs
  refine ⟨?_, ?_, ?_, ?_, hget, ?_⟩
  · subst ht
    simp only [Task.Update, Bool.false_eq_true, if_false]
    rw [updateWhere_absent _ _ s.rows habs]
  · simp only [ToggleTaskComplete, Bool.false_eq_true, if_false]
    rw [updateWhere_absent _ _ s.rows habs]
  · simp only [models.DeleteTask, Bool.false_eq_true, if_false]
    have : s.rows.filter (fun r => r.id != id) = s.rows := by
      rw [List.filter_eq_self]
      intro r hr
      simpa using habs r hr
    rw [this]
  · intro fault
    cases fault <;> simp [Task.Update, ToggleTaskComplete, models.DeleteTask]
  · intro f hf now title description
    simp [UpdateTask, ToggleTask, DeleteTask, hf, hget]

end handlers

namespace examples

open db models handlers

/-- C2 fails as stated: at 12:00 UTC on 2025-06-10 the date 2020-01-01 lies
before today-1 and `isWithinEditWindow` rejects it, yet `ToggleTask` on the
task of that date is answered with the redirect and the task is now
completed. -/
theorem ToggleTask_oldStore :
    utcNoon.FormatDate = "2025-06-10"
      ∧ time.parseCivil "2020-01-01" = some (2020, 1, 1)
      ∧ time.dateToDays 2020 1 1 < utcNoon.localDay - 1
      ∧ isWithinEditWindow utcNoon "2020-01-01" = false
      ∧ ToggleTask reliable oldStore (some 1)
          = (.Redirect 302 "/day/2020-01-01",
              { rows := [{ id := 1, date := "2020-01-01", title := "A", description := some "",
                           completed := 1, notes := some "", carried_from_date := none,
                           created_at := 1577880000 }],
                seq := 1 }) := by
  decide

/-- Witness of `ToggleTask_ignores_window` on `oldStore`. -/
theorem ToggleTask_ignores_window_witness :
    (ToggleTask reliable oldStore (some 1)).1 = .Redirect StatusFound ("/day/" ++ "2020-01-01")
      ∧ GetTaskByID false (ToggleTask reliable oldStore (some 1)).2 1
          = .ok { ID := 1, Date := "2020-01-01", Title := "A", Description := "",
                  Completed := true, Notes := "", CarriedFromDate := "",
                  CreatedAt := 1577880000 } :=
  have h := ToggleTask_ignores_window reliable utcNoon oldStore 1
    { id := 1, date := "2020-01-01", title := "A", description := some "",
      completed := 0, notes := some "", carried_from_date := none, created_at := 1577880000 }
    rfl rfl (by decide) (by decide) (by decide)
  ⟨h.1, h.2.1⟩

/-- Witness of `ToggleTask_involution` on `oldStore`. -/
theorem ToggleTask_involution_witness :
    (ToggleTask reliable (ToggleTask reliable oldStore (some 1)).2 (some 1)).2 = oldStore :=
  (ToggleTask_involution reliable reliable oldStore 1
    { id := 1, date := "2020-01-01", title := "A", description := some "",
      completed := 0, notes := some "", carried_from_date := none, created_at := 1577880000 }
    rfl rfl rfl rfl (by decide) (by decide)).2.2.2.2.2

/-- C9 fails as stated: id 7 is not in `oldStore`, and the three mutators
return without an error. -/
theorem mutators_oldStore_missing :
    Task.Update false oldStore
        { ID := 7, Date := "", Title := "B", Description := "", Completed := false,
          Notes := "", CarriedFromDate := "", CreatedAt := 0 } = .ok oldStore
      ∧ ToggleTaskComplete false oldStore 7 = .ok oldStore
      ∧ models.DeleteTask false oldStore 7 = .ok oldStore := by
  decide

/-- Witness of `mutators_ignore_missing_id` on `oldStore` and id 7. -/
theorem mutators_ignore_missing_id_witness :
    ToggleTaskComplete false oldStore 7 = .ok oldStore
      ∧ GetTaskByID false oldStore 7 = .error .ErrNoRows :=
  have h := mutators_ignore_missing_id oldStore
    { ID := 7, Date := "", Title := "B", Description := "", Completed := false,
      Notes := "", CarriedFromDate := "", CreatedAt := 0 } 7 (by decide) rfl
  ⟨h.2.1, h.2.2.2.2.1⟩

end examples

namespace handlers

open db models

/-- The store left by a successful `AddNotes` with a non-empty text. -/
theorem AddNotes_eq (f : Faults) (now : time.Time) (s : Store) (id : Int) (r : Row)
    (newNotes : String) (hf0 : f 0 = false) (hf1 : f 1 = false)
    (hr : s.rows.find? (fun r => r.id == id) = some r) (hn : newNotes ≠ "") :
    AddNotes f now s (some id) newNotes = (.Redirect StatusFound ("/day/" ++ r.date),
      { s with rows := updateWhere id (updatedRow { scan r with
          Notes := (if (scan r).Notes ≠ "" then (scan r).Notes ++ "\n\n" else (scan r).Notes)
            ++ ("[" ++ now.FormatDateTime ++ "] " ++ newNotes) }) s.rows }) := by
  have hrid := (find?_id_mem s.rows id r hr).2
  simp [AddNotes, hf0, hf1, GetTaskByID, hr, Task.Update, scan, hn, hrid]

/-- C5: `AddNotes` appends and checks no edit window.  For every clock, every
stored task (whatever its date) and every text, when the storage engine
answers both statements: a non-empty text makes the task's notes
`prior ++ sep ++ "[" ++ ts ++ "] " ++ text`, with `ts` the clock's local time
in layout `2006-01-02 15:04` and `sep` a blank line exactly when `prior` is
not empty, so `prior` starts the new notes and the length grows strictly; no
other field of the task, no row with another id, and neither the order nor
the sequence of the table changes.  An empty text leaves the store
unchanged, whatever the id and the storage engine's answers. -/
theorem AddNotes_appends (f : Faults) (now : time.Time) (s : Store) (id : Int) (r : Row)
    (newNotes : String) (hf0 : f 0 = false) (hf1 : f 1 = false)
    (hr : s.rows.find? (fun r => r.id == id) = some r) :
    (newNotes ≠ "" →
      (AddNotes f now s (some id) newNotes).1 = .Redirect StatusFound ("/day/" ++ r.date)
        ∧ GetTaskByID false (AddNotes f now s (some id) newNotes).2 id
            = .ok { scan r with
                Notes := (scan r).Notes ++ (if (scan r).Notes ≠ "" then "\n\n" else "")
                  ++ "[" ++ now.FormatDateTime ++ "] " ++ newNotes }
        ∧ (∀ t, GetTaskByID false (AddNotes f now s (some id) newNotes).2 id = .ok t →
            (∃ added, t.Notes = (scan r).Notes ++ added)
              ∧ (scan r).Notes.length < t.Notes.length)
        ∧ (AddNotes f now s (some id) newNotes).2.others id = s.others id
        ∧ (AddNotes f now s (some id) newNotes).2.ids = s.ids
        ∧ (AddNotes f now s (some id) newNotes).2.seq = s.seq)
      ∧ (∀ (g : Faults) (idParam : Option Int), (AddNotes g now s idParam "").2 = s) := by
  constructor
  · intro hn
    have hrid := (find?_id_mem s.rows id r hr).2
    have hget : GetTaskByID false (AddNotes f now s (some id) newNotes).2 id
        = .ok { scan r with
            Notes := (scan r).Notes ++ (if (scan r).Notes ≠ "" then "\n\n" else "")
              ++ "[" ++ now.FormatDateTime ++ "] " ++ newNotes } := by
      rw [AddNotes_eq f now s id r newNotes hf0 hf1 hr hn]
      simp only [GetTaskByID, Bool.false_eq_true, if_false]
      rw [find?_updateWhere id (updatedRow _) (fun _ => rfl) s.rows r hr]
      by_cases h1 : r.completed = 1 <;> by_cases h2 : r.notes.getD "" = "" <;>
        simp [scan, updatedRow, h1, h2, String.append_assoc] <;>
        (rw [← String.append_assoc "\n\n" "["]; rfl)
    refine ⟨by rw [AddNotes_eq f now s id r newNotes hf0 hf1 hr hn], hget, ?_, ?_, ?_, ?_⟩
    · intro t ht
      rw [hget] at ht
      injection ht with ht
      subst ht
      refine ⟨⟨(if (scan r).Notes ≠ "" then "\n\n" else "") ++ "[" ++ now.FormatDateTime
        ++ "] " ++ newNotes, by simp [String.append_assoc]⟩, ?_⟩
      simp only [String.length_append]
      have : ("[" : String).length = 1 := rfl
      omega
    · rw [AddNotes_eq f now s id r newNotes hf0 hf1 hr hn]
      exact others_updateWhere id (updatedRow _) (fun _ => rfl) s.rows
    · rw [AddNotes_eq f now s id r newNotes hf0 hf1 hr hn]
      exact ids_updateWhere id (updatedRow _) (fun _ => rfl) s.rows
    · rw [AddNotes_eq f now s id r newNotes hf0 hf1 hr hn]
  · intro g idParam
    cases idParam with
    | none => rfl
    | some j =>
      simp only [AddNotes, if_true]
      cases GetTaskByID (g 0) s j <;> rfl

end handlers

namespace examples

open db models handlers

/-- Witness of `AddNotes_appends` on `oldStore`: the note is appended to a
task dated 2020-01-01 at a clock of 2025. -/
theorem AddNotes_appends_witness :
    (AddNotes reliable utcNoon oldStore (some 1) "hello").1
        = .Redirect StatusFound ("/day/" ++ "2020-01-01")
      ∧ GetTaskByID false (AddNotes reliable utcNoon oldStore (some 1) "hello").2 1
          = .ok { ID := 1, Date := "2020-01-01", Title := "A", Description := "",
                  Completed := false, Notes := "[2025-06-10 12:00] hello",
                  CarriedFromDate := "", CreatedAt := 1577880000 } :=
  have h := (AddNotes_appends reliable utcNoon oldStore 1
    { id := 1, date := "2020-01-01", title := "A", description := some "",
      completed := 0, notes := some "", carried_from_date := none, created_at := 1577880000 }
    "hello" rfl rfl (by decide)).1 (by decide)
  ⟨h.1, h.2.1.trans (by decide)⟩

end examples

namespace db

theorem maxId_ge (rows : List Row) : ∀ r ∈ rows, r.id ≤ maxId rows := by
  induction rows with
  | nil => intro r hr; simp at hr
  | cons x xs ih =>
    intro r hr
    simp only [maxId]
    rcases List.mem_cons.1 hr with h | h
    · subst h; exact le_max_left _ _
    · exact le_trans (ih r h) (le_max_right _ _)

theorem maxId_nonneg (rows : List Row) : 0 ≤ maxId rows := by
  induction rows with
  | nil => simp [maxId]
  | cons x xs ih => simp only [maxId]; exact le_trans ih (le_max_right _ _)

theorem maxId_append (rows : List Row) (r : Row) :
    maxId (rows ++ [r]) = max (maxId rows) r.id := by
  induction rows with
  | nil => simp only [maxId, List.nil_append]; have := maxId_nonneg []; simp only [maxId] at this; omega
  | cons x xs ih =>
    have hcons : (x :: xs) ++ [r] = x :: (xs ++ [r]) := rfl
    rw [hcons]
    simp only [maxId]
    rw [ih]
    omega

/-- The rowid of an insert is larger than every id in the table. -/
theorem lt_nextRowid (s : Store) : ∀ r ∈ s.rows, r.id < nextRowid s := by
  intro r hr
  have := maxId_ge s.rows r hr
  simp only [nextRowid]
  omega

end db

namespace handlers

open db models

theorem CreateTask_cases (f : Faults) (now : time.Time) (s : Store)
    (date title description : String) :
    (title = "" →
        CreateTask f now s date title description
          = (.HTML StatusBadRequest "Title is required", s))
      ∧ (title ≠ "" →
          isWithinEditWindow now (if date = "" then now.FormatDate else date) = false →
        CreateTask f now s date title description
          = (.HTML StatusForbidden "Can only create tasks within 1 day of today", s))
      ∧ (title ≠ "" →
          isWithinEditWindow now (if date = "" then now.FormatDate else date) = true →
          f 0 = true →
        CreateTask f now s date title description
          = (.HTML StatusInternalServerError "Failed to create task", s))
      ∧ (title ≠ "" →
          isWithinEditWindow now (if date = "" then now.FormatDate else date) = true →
          f 0 = false →
        CreateTask f now s date title description
            = (.Redirect StatusFound ("/day/" ++ (if date = "" then now.FormatDate else date)),
                { rows := s.rows ++
                    [{ id := nextRowid s
                       date := if date = "" then now.FormatDate else date
                       title := title
                       description := some description
                       completed := 0
                       notes := some ""
                       carried_from_date := none
                       created_at := now.sec }],
                  seq := nextRowid s })
          ∧ ∀ r ∈ s.rows, r.id < nextRowid s) := by
  refine ⟨?_, ?_, ?_, ?_⟩
  · intro ht
    simp [CreateTask, ht]
  · intro ht hw
    simp [CreateTask, ht, hw]
  · intro ht hw hf
    simp [CreateTask, ht, hw, hf, Task.Create]
  · intro ht hw hf
    refine ⟨?_, lt_nextRowid s⟩
    simp [CreateTask, ht, hw, hf, Task.Create, insertedRow]

/-- Handler `UpdateTask` on a stored task, branch by branch: a date that
`isWithinEditWindow` rejects is answered with 403 and, the date accepted, an
empty title with 400, both without touching the store; otherwise, the
driver running the UPDATE, the task's title and description become the
form's values while its other fields, the rows with other ids, the order of
the table and its sequence are unchanged. -/
theorem UpdateTask_branches (f : Faults) (now : time.Time) (s : Store) (id : Int) (r : Row)
    (newTitle newDescription : String) (hf0 : f 0 = false)
    (hr : s.rows.find? (fun r => r.id == id) = some r) :
    (isWithinEditWindow now r.date = false →
        UpdateTask f now s (some id) newTitle newDescription
          = (.HTML StatusForbidden "Can only edit tasks within 1 day of today", s))
      ∧ (isWithinEditWindow now r.date = true → newTitle = "" →
        UpdateTask f now s (some id) newTitle newDescription
          = (.HTML StatusBadRequest "Title is required", s))
      ∧ (isWithinEditWindow now r.date = true → newTitle ≠ "" → f 1 = false →
        (UpdateTask f now s (some id) newTitle newDescription).1
            = .Redirect StatusFound ("/day/" ++ r.date)
          ∧ GetTaskByID false (UpdateTask f now s (some id) newTitle newDescription).2 id
              = .ok { scan r with Title := newTitle, Description := newDescription }
          ∧ (UpdateTask f now s (some id) newTitle newDescription).2.others id = s.others id
          ∧ (UpdateTask f now s (some id) newTitle newDescription).2.ids = s.ids
          ∧ (UpdateTask f now s (some id) newTitle newDescription).2.seq = s.seq) := by
  have hrid := (find?_id_mem s.rows id r hr).2
  refine ⟨?_, ?_, ?_⟩
  · intro hw
    simp [UpdateTask, hf0, GetTaskByID, hr, scan, hw]
  · intro hw ht
    simp [UpdateTask, hf0, GetTaskByID, hr, scan, hw, ht]
  · intro hw ht hf1
    have heq : UpdateTask f now s (some id) newTitle newDescription
        = (.Redirect StatusFound ("/day/" ++ r.date),
            { s with
              rows := updateWhere id
                (updatedRow { scan r with Title := newTitle, Description := newDescription })
                s.rows }) := by
      simp [UpdateTask, hf0, hf1, GetTaskByID, hr, scan, hw, ht, Task.Update, hrid]
    rw [heq]
    refine ⟨rfl, ?_, others_updateWhere id (updatedRow _) (fun _ => rfl) s.rows,
      ids_updateWhere id (updatedRow _) (fun _ => rfl) s.rows, rfl⟩
    simp only [GetTaskByID, Bool.false_eq_true, if_false]
    rw [find?_updateWhere id (updatedRow _) (fun _ => rfl) s.rows r hr]
    by_cases h1 : r.completed = 1 <;> simp [scan, updatedRow, h1]

end handlers

namespace examples

open db models handlers

/-- C6, evaluated where the local day and the UTC day differ: at 20:00 on
2025-06-10 in a zone eight hours west of UTC a form without a date is stored
under 2025-06-10, the service's "today", yet a task for 2025-06-09 (today-1)
is refused with 403 and a task for 2025-06-12 (today+2) is stored. -/
theorem CreateTask_pacificEvening :
    (CreateTask reliable pacificEvening Store.empty "" "A" "").1
        = .Redirect 302 "/day/2025-06-10"
      ∧ CreateTask reliable pacificEvening Store.empty "2025-06-09" "A" ""
          = (.HTML 403 "Can only create tasks within 1 day of today", Store.empty)
      ∧ CreateTask reliable pacificEvening Store.empty "2025-06-12" "A" ""
          = (.Redirect 302 "/day/2025-06-12",
              { rows := [{ id := 1, date := "2025-06-12", title := "A", description := some "",
                           completed := 0, notes := some "", carried_from_date := none,
                           created_at := 1749614400 }],
                seq := 1 }) := by
  decide

/-- C7, evaluated where the local day and the UTC day differ: at 20:00 on
2025-06-10 in a zone eight hours west of UTC, `UpdateTask` refuses with 403
to edit a task dated 2025-06-09 (today-1) and edits a task dated 2025-06-12
(today+2). -/
theorem UpdateTask_pacificEvening :
    pacificEvening.FormatDate = "2025-06-10"
      ∧ UpdateTask reliable pacificEvening
            { rows := [{ id := 1, date := "2025-06-09", title := "A", description := some "",
                         completed := 0, notes := some "", carried_from_date := none,
                         created_at := 1749500000 }],
              seq := 1 } (some 1) "B" "b"
          = (.HTML 403 "Can only edit tasks within 1 day of today",
              { rows := [{ id := 1, date := "2025-06-09", title := "A", description := some "",
                           completed := 0, notes := some "", carried_from_date := none,
                           created_at := 1749500000 }],
                seq := 1 })
      ∧ UpdateTask reliable pacificEvening
            { rows := [{ id := 1, date := "2025-06-12", title := "A", description := some "",
                         completed := 0, notes := some "", carried_from_date := none,
                         created_at := 1749614400 }],
              seq := 1 } (some 1) "B" "b"
          = (.Redirect 302 "/day/2025-06-12",
              { rows := [{ id := 1, date := "2025-06-12", title := "B", description := some "b",
                           completed := 0, notes := some "", carried_from_date := none,
                           created_at := 1749614400 }],
                seq := 1 }) := by
  decide

end examples

namespace time

theorem daysSinceEpoch_succ (y : Int) :
    daysSinceEpoch (y + 1) = daysSinceEpoch y + (if isLeap y = true then 366 else 365) := by
  simp only [daysSinceEpoch, isLeap_iff]
  split <;> omega

/-- The zero-based day of the year of a civil date. -/
theorem yday_bounds (y : Int) (m : Nat) (d : Int) (h : validCivil y m d) :
    0 ≤ daysBefore (m - 1) + (if isLeap y = true ∧ 3 ≤ m then 1 else 0) + (d - 1)
      ∧ daysBefore (m - 1) + (if isLeap y = true ∧ 3 ≤ m then 1 else 0) + (d - 1)
          < (if isLeap y = true then 366 else 365) := by
  obtain ⟨h1, h12, hd1, hd⟩ := h
  simp only [daysIn] at hd
  by_cases hl : isLeap y = true
  · simp only [hl, and_true, true_and, if_true] at hd ⊢
    interval_cases m <;> simp [daysBefore] at hd ⊢ <;> omega
  · simp only [hl, and_false, false_and, if_false] at hd ⊢
    interval_cases m <;> simp [daysBefore] at hd ⊢ <;> omega

theorem monthDay_of_valid (y : Int) (m : Nat) (d : Int) (h : validCivil y m d) :
    monthDay y (daysBefore (m - 1) + (if isLeap y = true ∧ 3 ≤ m then 1 else 0) + (d - 1))
      = (m, d) := by
  obtain ⟨h1, h12, hd1, hd⟩ := h
  simp only [daysIn] at hd
  by_cases hl : isLeap y = true
  · simp only [hl, and_true, true_and] at hd
    by_cases hm : 3 ≤ m
    · have hm2 : m ≠ 2 := by omega
      simp only [hm2, if_false] at hd
      have hgt : daysBefore (m - 1) + 1 + (d - 1) > 31 + 29 - 1 := by
        interval_cases m <;> simp [daysBefore] at hd ⊢ <;> omega
      simp only [monthDay, hl, hm, and_self, if_true, true_and, ne_of_gt hgt, if_false, hgt]
      have := monthOf_daysBefore m d h1 h12 hd1 hd
      rw [← this]
      congr 1
      omega
    · simp only [hm, and_false, if_false, add_zero]
      by_cases h29 : m = 2 ∧ d = 29
      · obtain ⟨rfl, rfl⟩ := h29
        simp [monthDay, hl, daysBefore]
      · have hd' : d ≤ daysBefore m - daysBefore (m - 1) := by
          by_cases hm2 : m = 2
          · subst hm2
            simp only [if_true] at hd
            simp only [daysBefore]
            omega
          · simpa [hm2] using hd
        have hlt : daysBefore (m - 1) + (d - 1) < 31 + 29 - 1 := by
          have : m = 1 ∨ m = 2 := by omega
          rcases this with rfl | rfl <;> simp [daysBefore] at hd' ⊢ <;> omega
        simp only [monthDay, hl, true_and, ne_of_lt hlt, if_false, not_lt_of_gt hlt]
        exact monthOf_daysBefore m d h1 h12 hd1 hd'
  · simp only [hl, Bool.false_eq_true, and_false, false_and, if_false, add_zero] at hd ⊢
    simp only [monthDay, hl, Bool.false_eq_true, false_and, if_false]
    exact monthOf_daysBefore m d h1 h12 hd1 hd

/-- Function `civil` inverts `dateToDays` on the dates of the calendar. -/
theorem civil_dateToDays (y : Int) (m : Nat) (d : Int) (h : validCivil y m d) :
    civil (dateToDays y m d) = (y, m, d) := by
  obtain ⟨hb0, hb1⟩ := yday_bounds y m d h
  have hyd : yearDay (dateToDays y m d)
      = (y, daysBefore (m - 1) + (if isLeap y = true ∧ 3 ≤ m then 1 else 0) + (d - 1)) := by
    have := yearDay_daysSinceEpoch y _ hb0 hb1
    rw [← this]
    congr 1
    simp only [dateToDays]
    omega
  simp only [civil, hyd, monthDay_of_valid y m d h]

/-- The date after a civil date is a civil date, one day later. -/
theorem dateToDays_nextCivil (y : Int) (m : Nat) (d : Int) (h : validCivil y m d) :
    validCivil (nextCivil y m d).1 (nextCivil y m d).2.1 (nextCivil y m d).2.2
      ∧ dateToDays (nextCivil y m d).1 (nextCivil y m d).2.1 (nextCivil y m d).2.2
          = dateToDays y m d + 1 := by
  obtain ⟨h1, h12, hd1, hd⟩ := h
  unfold nextCivil
  by_cases hlt : d < daysIn m y
  · simp only [hlt, if_true, validCivil, dateToDays]
    exact ⟨⟨h1, h12, by omega, by omega⟩, by omega⟩
  · have hde : d = daysIn m y := by omega
    simp only [hlt, if_false]
    by_cases hm : m < 12
    · simp only [hm, if_true, validCivil, dateToDays, daysIn] at hde ⊢
      by_cases hl : isLeap y = true
      · simp only [hl, and_true, true_and] at hde ⊢
        interval_cases m <;> simp [daysBefore] at hde ⊢ <;> omega
      · simp only [hl, and_false, false_and, if_false] at hde ⊢
        interval_cases m <;> simp [daysBefore] at hde ⊢ <;> omega
    · have hm12 : m = 12 := by omega
      subst hm12
      simp only [lt_irrefl, if_false, validCivil, dateToDays, daysIn, daysSinceEpoch_succ] at hde ⊢
      by_cases hl : isLeap y = true
      · by_cases hl' : isLeap (y + 1) = true <;>
          simp [hl, hl', daysBefore] at hde ⊢ <;> omega
      · by_cases hl' : isLeap (y + 1) = true <;>
          simp [hl, hl', daysBefore] at hde ⊢ <;> omega

theorem civil_succ (y : Int) (m : Nat) (d : Int) (h : validCivil y m d) :
    civil (dateToDays y m d + 1) = nextCivil y m d := by
  obtain ⟨hv, he⟩ := dateToDays_nextCivil y m d h
  rw [← he, civil_dateToDays _ _ _ hv]

end time

namespace time

/-- The day after a parsed date, as `PrepareNextDay` formats it. -/
theorem FormatDate_AddDate_one (y : Int) (m : Nat) (d : Int) (h : validCivil y m d) :
    (Time.AddDate { sec := dateToDays y m d * 86400, offset := 0 } 0 0 1).FormatDate
      = formatCivil (nextCivil y m d).1 (nextCivil y m d).2.1 (nextCivil y m d).2.2 := by
  have hday : (Time.AddDate { sec := dateToDays y m d * 86400, offset := 0 } 0 0 1).localDay
      = dateToDays y m d + 1 := by
    have hoff : (Time.AddDate { sec := dateToDays y m d * 86400, offset := 0 } 0 0 1).offset
        = 0 := rfl
    simp only [Time.localDay, AddDate_sec, hoff]
    omega
  simp only [Time.FormatDate, hday, civil_succ y m d h]

end time

namespace db

theorem orderedInsert_of_forall (a : Row) (l : List Row)
    (h : ∀ x ∈ l, a.created_at ≤ x.created_at) :
    l.orderedInsert (fun a b => a.created_at ≤ b.created_at) a = a :: l := by
  cases l with
  | nil => rfl
  | cons b l => simp [List.orderedInsert, h b (List.mem_cons_self _ _)]

theorem filter_orderedInsert (p : Row → Bool) (a : Row) (l : List Row)
    (hl : l.Sorted (fun a b => a.created_at ≤ b.created_at)) :
    (l.orderedInsert (fun a b => a.created_at ≤ b.created_at) a).filter p
      = if p a = true then (l.filter p).orderedInsert (fun a b => a.created_at ≤ b.created_at) a
        else l.filter p := by
  induction l with
  | nil => by_cases hp : p a = true <;> simp [hp]
  | cons b l ih =>
    have hl' := List.sorted_cons.1 hl
    by_cases hab : a.created_at ≤ b.created_at
    · have hall0 : ∀ x ∈ b :: l, a.created_at ≤ x.created_at := by
        intro x hx
        rcases List.mem_cons.1 hx with rfl | hx''
        · exact hab
        · exact le_trans hab (hl'.1 x hx'')
      have hall : ∀ x ∈ (b :: l).filter p, a.created_at ≤ x.created_at :=
        fun x hx => hall0 x (List.mem_filter.1 hx).1
      rw [orderedInsert_of_forall a (b :: l) hall0, orderedInsert_of_forall a _ hall]
      by_cases hp : p a = true <;> simp [List.filter_cons, hp]
    · rw [List.orderedInsert, if_neg hab, List.filter_cons, ih hl'.2]
      by_cases hpb : p b = true <;> by_cases hp : p a = true <;>
        simp [List.filter_cons, hpb, hp, List.orderedInsert, hab]

/-- The order of `ORDER BY created_at` commutes with a further WHERE
condition. -/
theorem orderByCreatedAt_filter (p : Row → Bool) (l : List Row) :
    orderByCreatedAt (l.filter p) = (orderByCreatedAt l).filter p := by
  induction l with
  | nil => rfl
  | cons a l ih =>
    simp only [orderByCreatedAt] at ih ⊢
    rw [List.insertionSort, filter_orderedInsert p a _ (List.sorted_insertionSort _ l), ← ih]
    by_cases hp : p a = true <;> simp [List.filter_cons, hp]

theorem orderByCreatedAt_perm (l : List Row) : (orderByCreatedAt l).Perm l :=
  List.perm_insertionSort _ l

theorem orderByCreatedAt_of_sorted (l : List Row)
    (h : l.Pairwise (fun a b => a.created_at ≤ b.created_at)) : orderByCreatedAt l = l :=
  List.Sorted.insertionSort_eq h

/-- The order of `ORDER BY created_at` is stable: the rows of one creation
time keep the order they have in the table. -/
theorem orderByCreatedAt_stable (l : List Row) (c : Int) :
    (orderByCreatedAt l).filter (fun r => decide (r.created_at = c))
      = l.filter (fun r => decide (r.created_at = c)) := by
  rw [← orderByCreatedAt_filter]
  apply orderByCreatedAt_of_sorted
  apply List.pairwise_of_forall_mem_list
  intro a ha b hb
  have h1 := (List.mem_filter.1 ha).2
  have h2 := (List.mem_filter.1 hb).2
  simp only [decide_eq_true_eq] at h1 h2
  omega

theorem orderByCreatedAt_pairwise (l : List Row) :
    (orderByCreatedAt l).Pairwise (fun a b => a.created_at ≤ b.created_at) :=
  List.sorted_insertionSort (fun a b : Row => a.created_at ≤ b.created_at) l

theorem nextRowid_insert (s : Store) (r : Row) (hr : r.id = nextRowid s) :
    nextRowid { rows := s.rows ++ [r], seq := nextRowid s } = nextRowid s + 1 := by
  have h0 := maxId_nonneg s.rows
  simp only [nextRowid, maxId_append, hr] at *
  omega

end db

namespace handlers

open db models

theorem carriedRows_length (now : time.Time) (nextDate dateParam : String) (tasks : List Task) :
    ∀ id, (carriedRows now nextDate dateParam id tasks).length = tasks.length := by
  induction tasks with
  | nil => intro id; rfl
  | cons t rest ih => intro id; simp [carriedRows, ih]

theorem carriedRows_getElem? (now : time.Time) (nextDate dateParam : String)
    (tasks : List Task) :
    ∀ (id : Int) (i : Nat) (hi : i < tasks.length),
      (carriedRows now nextDate dateParam id tasks)[i]?
        = some (insertedRow (carriedTask nextDate dateParam tasks[i]) (id + i) now.sec) := by
  induction tasks with
  | nil => intro id i hi; simp at hi
  | cons t rest ih =>
    intro id i hi
    cases i with
    | zero => simp [carriedRows]
    | succ j =>
      simp only [carriedRows, List.getElem?_cons_succ, List.getElem_cons_succ]
      rw [ih (id + 1) j (by simpa using hi)]
      congr 2
      push_cast
      omega

/-- The loop of `PrepareNextDay` when no insert fails. -/
theorem copyTasks_of_no_fault (f : Faults) (now : time.Time) (nextDate dateParam : String)
    (tasks : List Task) :
    ∀ (k c : Nat) (s : Store), (∀ j, k ≤ j → f j = false) →
      (copyTasks f now nextDate dateParam k tasks (c, s)).1 = c + tasks.length
        ∧ (copyTasks f now nextDate dateParam k tasks (c, s)).2.rows
            = s.rows ++ carriedRows now nextDate dateParam (nextRowid s) tasks := by
  induction tasks with
  | nil => intro k c s _; simp [copyTasks, carriedRows]
  | cons t rest ih =>
    intro k c s hf
    have hk : f k = false := hf k (le_refl k)
    simp only [copyTasks, Task.Create, hk, Bool.false_eq_true, if_false]
    obtain ⟨h1, h2⟩ := ih (k + 1) (c + 1)
      { rows := s.rows ++ [insertedRow (carriedTask nextDate dateParam t) (nextRowid s) now.sec],
        seq := nextRowid s } (fun j hj => hf j (by omega))
    rw [h1, h2, nextRowid_insert s _ rfl]
    simp only [carriedRows, List.length_cons, List.append_assoc, List.singleton_append, and_true]
    omega

/-- On a valid table the uncompleted tasks of a date are the tasks of the date
that are not completed, in the same order. -/
theorem GetUncompletedTasksByDate_eq_filter (s : Store) (date : String) (hv : s.Valid) :
    GetUncompletedTasksByDate false s date
      = .ok (((orderByCreatedAt (s.rows.filter (fun r => r.date == date))).map scan).filter
          (fun t => !t.Completed)) := by
  simp only [GetUncompletedTasksByDate, Bool.false_eq_true, if_false]
  have h1 : s.rows.filter (fun r => r.date == date && r.completed == 0)
      = (s.rows.filter (fun r => r.date == date)).filter (fun r => r.completed == 0) := by
    rw [List.filter_filter]
    congr 1
    funext r
    exact Bool.and_comm _ _
  rw [h1, orderByCreatedAt_filter, List.filter_map]
  congr 2
  apply List.filter_congr
  intro r hr
  have hmem : r ∈ s.rows :=
    (List.mem_filter.1 ((orderByCreatedAt_perm _).mem_iff.1 hr)).1
  rcases hv r hmem with h | h <;> simp [scan, h]

/-- C4: `PrepareNextDay` carries the uncompleted tasks of a date over to the
next day.  For every clock, every table and every string that `time.Parse`
reads as the date `(y, m, d)`, when the driver fails neither the query nor an
insert, there is a list `src` of rows such that

* `src` holds exactly the rows of the table that have the requested date and
  `completed = 0`, each once (a permutation of that selection of `s.rows`),
  ordered by creation time, rows of one creation time in table order;
* `src`, scanned, is what `GetUncompletedTasksByDate` returns, and on a table
  whose `completed` column holds 0 or 1 it is the list of the tasks of
  `GetTasksByDate` that are not completed;
* the reply redirects to the next day and the number logged as carried over
  is the length of `src`;
* the rows of the table are kept as they are and one row is appended per row
  of `src`, in the order of `src`, under a fresh consecutive rowid above every
  rowid of the table, with the title and description of its source, the
  calendar day after `(y, m, d)` as date, `completed` 0, empty notes and the
  request's date as `carried_from_date`.

No row is appended for a row of the date whose `completed` is not 0. -/
theorem PrepareNextDay_carries (f : Faults) (now : time.Time) (s : Store) (dateParam : String)
    (y : Int) (m : Nat) (d : Int) (hD : time.parseCivil dateParam = some (y, m, d))
    (hq : f 0 = false) (hins : ∀ k, f (k + 1) = false) :
    ∃ (src added : List Row) (nextDate : String),
      nextDate = time.formatCivil (time.nextCivil y m d).1 (time.nextCivil y m d).2.1
          (time.nextCivil y m d).2.2
        ∧ src.Perm (s.rows.filter (fun r => decide (r.date = dateParam ∧ r.completed = 0)))
        ∧ src.Pairwise (fun a b => a.created_at ≤ b.created_at)
        ∧ (∀ c : Int, src.filter (fun r => decide (r.created_at = c))
            = (s.rows.filter (fun r => decide (r.date = dateParam ∧ r.completed = 0))).filter
                (fun r => decide (r.created_at = c)))
        ∧ GetUncompletedTasksByDate false s dateParam = .ok (src.map scan)
        ∧ (s.Valid → ∃ all : List Task, GetTasksByDate false s dateParam = .ok all
            ∧ src.map scan = all.filter (fun t => !t.Completed))
        ∧ (PrepareNextDay f now s dateParam).1 = .Redirect StatusFound ("/day/" ++ nextDate)
        ∧ (PrepareNextDay f now s dateParam).2.1 = src.length
        ∧ (PrepareNextDay f now s dateParam).2.2.rows = s.rows ++ added
        ∧ (∀ x ∈ s.rows, x.id < nextRowid s)
        ∧ added.length = src.length
        ∧ ∀ (i : Nat) (hi : i < src.length),
            added[i]? = some
              { id := nextRowid s + i
                date := nextDate
                title := src[i].title
                description := some (src[i].description.getD "")
                completed := 0
                notes := some ""
                carried_from_date := some dateParam
                created_at := now.sec } := by
  have hne : dateParam ≠ "" := time.parseCivil_ne_empty dateParam _ hD
  have hval := time.parseCivil_valid dateParam y m d hD
  have hparse : time.Parse dateParam
      = some { sec := time.dateToDays y m d * 86400, offset := 0 } :=
    (time.Parse_eq_some _ _).2 ⟨y, m, d, hD, rfl⟩
  have hsel : (fun r : Row => r.date == dateParam && r.completed == 0)
      = (fun r : Row => decide (r.date = dateParam ∧ r.completed = 0)) := by
    funext r
    by_cases h1 : r.date = dateParam <;> by_cases h2 : r.completed = 0 <;> simp [h1, h2]
  have hunc : GetUncompletedTasksByDate false s dateParam
      = .ok ((orderByCreatedAt
          (s.rows.filter (fun r => decide (r.date = dateParam ∧ r.completed = 0)))).map scan) := by
    simp only [GetUncompletedTasksByDate, Bool.false_eq_true, if_false, hsel]
  have hfault : ∀ j, 1 ≤ j → f j = false := by
    intro j hj
    obtain ⟨k, rfl⟩ : ∃ k, j = k + 1 := ⟨j - 1, by omega⟩
    exact hins k
  have hcopy := fun nextDate tasks =>
    copyTasks_of_no_fault f now nextDate dateParam tasks 1 0 s hfault
  refine ⟨orderByCreatedAt
      (s.rows.filter (fun r => decide (r.date = dateParam ∧ r.completed = 0))),
    carriedRows now (time.formatCivil (time.nextCivil y m d).1 (time.nextCivil y m d).2.1
        (time.nextCivil y m d).2.2) dateParam (nextRowid s)
      ((orderByCreatedAt
        (s.rows.filter (fun r => decide (r.date = dateParam ∧ r.completed = 0)))).map scan),
    time.formatCivil (time.nextCivil y m d).1 (time.nextCivil y m d).2.1
      (time.nextCivil y m d).2.2, rfl, orderByCreatedAt_perm _, orderByCreatedAt_pairwise _,
    fun c => orderByCreatedAt_stable _ c, hunc, ?_, ?_, ?_, ?_, lt_nextRowid s, ?_, ?_⟩
  · intro hv
    refine ⟨(orderByCreatedAt (s.rows.filter (fun r => r.date == dateParam))).map scan, ?_, ?_⟩
    · simp [GetTasksByDate]
    · have h := GetUncompletedTasksByDate_eq_filter s dateParam hv
      rw [hunc] at h
      exact Except.ok.inj h
  · simp only [PrepareNextDay, hparse, hq, hunc, time.FormatDate_AddDate_one y m d hval]
  · simp only [PrepareNextDay, hparse, hq, hunc, time.FormatDate_AddDate_one y m d hval]
    rw [(hcopy _ _).1]
    simp
  · simp only [PrepareNextDay, hparse, hq, hunc, time.FormatDate_AddDate_one y m d hval]
    rw [(hcopy _ _).2]
  · rw [carriedRows_length, List.length_map]
  · intro i hi
    rw [carriedRows_getElem? now _ dateParam _ (nextRowid s) i (by simpa using hi)]
    simp [insertedRow, carriedTask, scan, hne]

end handlers

namespace examples

open db models handlers

/-- Witness of `PrepareNextDay_carries`: the scenario of one completed and one
uncompleted task on 2025-06-10. -/
theorem PrepareNextDay_carries_witness :
    ∃ (src added : List Row) (nextDate : String),
      nextDate = time.formatCivil (time.nextCivil 2025 6 10).1 (time.nextCivil 2025 6 10).2.1
          (time.nextCivil 2025 6 10).2.2
        ∧ src.Perm (juneStore.rows.filter
            (fun r => decide (r.date = "2025-06-10" ∧ r.completed = 0)))
        ∧ src.Pairwise (fun a b => a.created_at ≤ b.created_at)
        ∧ (∀ c : Int, src.filter (fun r => decide (r.created_at = c))
            = (juneStore.rows.filter
                (fun r => decide (r.date = "2025-06-10" ∧ r.completed = 0))).filter
                (fun r => decide (r.created_at = c)))
        ∧ GetUncompletedTasksByDate false juneStore "2025-06-10" = .ok (src.map scan)
        ∧ (juneStore.Valid → ∃ all : List Task,
            GetTasksByDate false juneStore "2025-06-10" = .ok all
            ∧ src.map scan = all.filter (fun t => !t.Completed))
        ∧ (PrepareNextDay reliable utcNoon juneStore "2025-06-10").1
            = .Redirect StatusFound ("/day/" ++ nextDate)
        ∧ (PrepareNextDay reliable utcNoon juneStore "2025-06-10").2.1 = src.length
        ∧ (PrepareNextDay reliable utcNoon juneStore "2025-06-10").2.2.rows
            = juneStore.rows ++ added
        ∧ (∀ x ∈ juneStore.rows, x.id < nextRowid juneStore)
        ∧ added.length = src.length
        ∧ ∀ (i : Nat) (hi : i < src.length),
            added[i]? = some
              { id := nextRowid juneStore + i
                date := nextDate
                title := src[i].title
                description := some (src[i].description.getD "")
                completed := 0
                notes := some ""
                carried_from_date := some "2025-06-10"
                created_at := utcNoon.sec } :=
  PrepareNextDay_carries reliable utcNoon juneStore "2025-06-10" 2025 6 10 (by decide) rfl
    (fun _ => rfl)

/-- The scenario of C4 evaluated: one task is carried from 2025-06-10 to
2025-06-11. -/
theorem PrepareNextDay_juneStore :
    PrepareNextDay reliable utcNoon juneStore "2025-06-10"
      = (.Redirect 302 "/day/2025-06-11", 1,
          { rows := juneStore.rows ++
              [{ id := 3, date := "2025-06-11", title := "open", description := some "d",
                 completed := 0, notes := some "", carried_from_date := some "2025-06-10",
                 created_at := 1749556800 }],
            seq := 3 }) := by
  decide

end examples

namespace handlers

open db models

theorem createAll_rows (l : List (time.Time × Task)) :
    ∀ s : Store, (createAll l s).rows = s.rows ++ insertedRows (nextRowid s) l := by
  induction l with
  | nil => intro s; simp [createAll, insertedRows]
  | cons x rest ih =>
    intro s
    obtain ⟨now, t⟩ := x
    simp only [createAll, Task.Create, Bool.false_eq_true, if_false]
    rw [ih, nextRowid_insert s _ rfl]
    simp [insertedRows]

theorem insertedRows_pairwise (l : List (time.Time × Task))
    (h : l.Pairwise (fun a b => a.1.sec ≤ b.1.sec)) :
    ∀ id, (insertedRows id l).Pairwise (fun a b => a.created_at ≤ b.created_at) := by
  induction l with
  | nil => intro id; simp [insertedRows]
  | cons x rest ih =>
    intro id
    obtain ⟨now, t⟩ := x
    obtain ⟨h1, h2⟩ := List.pairwise_cons.1 h
    simp only [insertedRows, List.pairwise_cons]
    refine ⟨?_, ih h2 (id + 1)⟩
    have hmem : ∀ (l' : List (time.Time × Task)) (j : Int) (r : Row),
        r ∈ insertedRows j l' → ∃ y ∈ l', r.created_at = y.1.sec := by
      intro l'
      induction l' with
      | nil => intro j r hr; simp [insertedRows] at hr
      | cons z zs ihz =>
        intro j r hr
        obtain ⟨nz, tz⟩ := z
        simp only [insertedRows, List.mem_cons] at hr
        rcases hr with rfl | hr
        · exact ⟨(nz, tz), List.mem_cons_self _ _, rfl⟩
        · obtain ⟨y, hy, hy'⟩ := ihz (j + 1) r hr
          exact ⟨y, List.mem_cons_of_mem _ hy, hy'⟩
    intro r hr
    obtain ⟨y, hy, hy'⟩ := hmem rest (id + 1) r hr
    rw [hy']
    exact h1 y hy

/-- C10 as amended: `GetTasksByDate` lists the tasks of the date in the order
of `created_at`, which is the order of insertion only while the clock does
not step back.  After any run of creations from the empty table, for every
date: the table holds the rows of the run in the order of the run; the tasks
returned are exactly the stored tasks of that date, each once (a permutation
of them), in ascending order of `created_at`; and when the clock readings of
the run are non-decreasing they come in the order of insertion, also among
equal `created_at` values. -/
theorem GetTasksByDate_createAll (l : List (time.Time × Task)) (date : String) :
    (createAll l Store.empty).rows = insertedRows 1 l
      ∧ (∃ tasks, GetTasksByDate false (createAll l Store.empty) date = .ok tasks
          ∧ tasks.Perm (((createAll l Store.empty).rows.filter
              (fun r => r.date == date)).map scan)
          ∧ tasks.Pairwise (fun a b => a.CreatedAt ≤ b.CreatedAt))
      ∧ (l.Pairwise (fun a b => a.1.sec ≤ b.1.sec) →
          GetTasksByDate false (createAll l Store.empty) date
            = .ok (((createAll l Store.empty).rows.filter (fun r => r.date == date)).map scan))
      := by
  have hrows : (createAll l Store.empty).rows = insertedRows 1 l := by
    rw [createAll_rows]
    simp [Store.empty, nextRowid, maxId]
  refine ⟨hrows, ⟨_, by simp only [GetTasksByDate, Bool.false_eq_true, if_false],
    (orderByCreatedAt_perm _).map scan, ?_⟩, ?_⟩
  · rw [List.pairwise_map]
    exact List.sorted_insertionSort (fun a b : Row => a.created_at ≤ b.created_at) _
  · intro hmono
    simp only [GetTasksByDate, Bool.false_eq_true, if_false]
    rw [orderByCreatedAt_of_sorted]
    rw [hrows]
    exact (insertedRows_pairwise l hmono 1).filter _

end handlers

namespace examples

open db models handlers

/-- C10 fails as stated: when the clock is set back between two creations for
the same date, `GetTasksByDate` returns the task inserted second before the
task inserted first. -/
theorem GetTasksByDate_clockSetBack :
    (createAll clockSetBack Store.empty).rows.map (fun r => (r.id, r.title))
        = [(1, "first"), (2, "second")]
      ∧ (GetTasksByDate false (createAll clockSetBack Store.empty) "2025-06-10").map
          (fun tasks => tasks.map (fun t => (t.ID, t.Title)))
        = .ok [(2, "second"), (1, "first")] := by
  decide

/-- Witness of `GetTasksByDate_createAll`: two creations a second apart. -/
theorem GetTasksByDate_createAll_witness :
    GetTasksByDate false (createAll
        [(utcNoon, juneTask "first"), ({ sec := 1749556801, offset := 0 }, juneTask "second")]
        Store.empty) "2025-06-10"
      = .ok (((createAll
        [(utcNoon, juneTask "first"), ({ sec := 1749556801, offset := 0 }, juneTask "second")]
        Store.empty).rows.filter (fun r => r.date == "2025-06-10")).map scan) :=
  (GetTasksByDate_createAll
    [(utcNoon, juneTask "first"), ({ sec := 1749556801, offset := 0 }, juneTask "second")]
    "2025-06-10").2.2 (by decide)

end examples

namespace handlers

open db models

theorem exists_of_ids_eq (s s' : Store) (h : s'.ids = s.ids) (r : Row) (hr : r ∈ s'.rows) :
    ∃ x ∈ s.rows, x.id = r.id := by
  have hmem : r.id ∈ s'.ids := List.mem_map.2 ⟨r, hr, rfl⟩
  rw [h] at hmem
  obtain ⟨x, hx, hx'⟩ := List.mem_map.1 hmem
  exact ⟨x, hx, hx'⟩

theorem Update_ids (fault : Bool) (s s' : Store) (t : Task) (h : t.Update fault s = .ok s') :
    s'.ids = s.ids := by
  cases fault with
  | true => simp [Task.Update] at h
  | false =>
    simp only [Task.Update, Bool.false_eq_true, if_false, Except.ok.injEq] at h
    subst h
    exact ids_updateWhere _ (updatedRow t) (fun _ => rfl) s.rows

theorem UpdateTask_ids (f : Faults) (now : time.Time) (s : Store) (idParam : Option Int)
    (newTitle newDescription : String) :
    (UpdateTask f now s idParam newTitle newDescription).2.ids = s.ids := by
  unfold UpdateTask
  cases idParam with
  | none => rfl
  | some id =>
    simp only
    cases GetTaskByID (f 0) s id with
    | error e => rfl
    | ok task =>
      simp only
      split
      · rfl
      · split
        · rfl
        · cases hu : Task.Update (f 1) s
              { task with Title := newTitle, Description := newDescription } with
          | error e => rfl
          | ok s' => exact Update_ids _ _ _ _ hu

theorem ToggleTask_ids (f : Faults) (s : Store) (idParam : Option Int) :
    (ToggleTask f s idParam).2.ids = s.ids := by
  unfold ToggleTask
  cases idParam with
  | none => rfl
  | some id =>
    simp only
    cases GetTaskByID (f 0) s id with
    | error e => rfl
    | ok task =>
      simp only
      cases hf : f 1
      · simp only [ToggleTaskComplete, Bool.false_eq_true, if_false]
        exact ids_updateWhere id toggledRow (fun _ => rfl) s.rows
      · simp [ToggleTaskComplete]

theorem AddNotes_ids (f : Faults) (now : time.Time) (s : Store) (idParam : Option Int)
    (newNotes : String) : (AddNotes f now s idParam newNotes).2.ids = s.ids := by
  unfold AddNotes
  cases idParam with
  | none => rfl
  | some id =>
    simp only
    split
    · cases GetTaskByID (f 0) s id <;> rfl
    · cases GetTaskByID (f 0) s id with
      | error e => rfl
      | ok task =>
        simp only
        split
        · rfl
        · rename_i s' hu
          exact Update_ids _ _ _ _ hu

theorem DeleteTask_rows (f : Faults) (s : Store) (idParam : Option Int) (r : Row)
    (hr : r ∈ (DeleteTask f s idParam).2.rows) : r ∈ s.rows := by
  unfold DeleteTask at hr
  cases idParam with
  | none => exact hr
  | some id =>
    simp only at hr
    cases hg : GetTaskByID (f 0) s id with
    | error e => rw [hg] at hr; exact hr
    | ok task =>
      rw [hg] at hr
      simp only at hr
      cases hf : f 1
      · simp only [models.DeleteTask, hf, Bool.false_eq_true, if_false] at hr
        exact (List.mem_filter.1 hr).1
      · simp only [models.DeleteTask, hf, if_true] at hr
        exact hr

theorem CreateTask_rows (f : Faults) (now : time.Time) (s : Store)
    (date title description : String) (r : Row)
    (hr : r ∈ (CreateTask f now s date title description).2.rows) :
    r ∈ s.rows ∨ isWithinEditWindow now r.date = true := by
  obtain ⟨b1, b2, b3, b4⟩ := CreateTask_cases f now s date title description
  by_cases ht : title = ""
  · rw [b1 ht] at hr
    exact Or.inl hr
  · cases hw : isWithinEditWindow now (if date = "" then now.FormatDate else date) with
    | false =>
      rw [b2 ht hw] at hr
      exact Or.inl hr
    | true =>
      cases hf : f 0 with
      | true =>
        rw [b3 ht hw hf] at hr
        exact Or.inl hr
      | false =>
        rw [(b4 ht hw hf).1] at hr
        simp only [List.mem_append, List.mem_singleton] at hr
        rcases hr with hr | rfl
        · exact Or.inl hr
        · exact Or.inr hw

theorem copyTasks_rows (f : Faults) (now : time.Time) (nextDate dateParam : String)
    (tasks : List Task) :
    ∀ (k c : Nat) (s : Store) (r : Row),
      r ∈ (copyTasks f now nextDate dateParam k tasks (c, s)).2.rows →
      r ∈ s.rows ∨ (r.date = nextDate
        ∧ r.carried_from_date = if dateParam ≠ "" then some dateParam else none) := by
  induction tasks with
  | nil => intro k c s r hr; exact Or.inl hr
  | cons t rest ih =>
    intro k c s r hr
    cases hf : f k
    · simp only [copyTasks, Task.Create, hf, Bool.false_eq_true, if_false] at hr
      rcases ih _ _ _ r hr with h | h
      · simp only [List.mem_append, List.mem_singleton] at h
        rcases h with h | rfl
        · exact Or.inl h
        · exact Or.inr ⟨rfl, rfl⟩
      · exact Or.inr h
    · simp only [copyTasks, Task.Create, hf, if_true] at hr
      exact ih _ _ _ r hr

theorem PrepareNextDay_rows (f : Faults) (now : time.Time) (s : Store) (dateParam : String)
    (r : Row) (hr : r ∈ (PrepareNextDay f now s dateParam).2.2.rows) :
    r ∈ s.rows ∨ ∃ y m d, time.parseCivil dateParam = some (y, m, d)
      ∧ r.date = time.formatCivil (time.nextCivil y m d).1 (time.nextCivil y m d).2.1
          (time.nextCivil y m d).2.2
      ∧ r.carried_from_date = some dateParam := by
  unfold PrepareNextDay at hr
  cases hp : time.Parse dateParam with
  | none => rw [hp] at hr; exact Or.inl hr
  | some currentDate =>
    obtain ⟨y, m, d, hD, rfl⟩ := (time.Parse_eq_some _ _).1 hp
    rw [hp] at hr
    simp only at hr
    cases hq : GetUncompletedTasksByDate (f 0) s dateParam with
    | error e => rw [hq] at hr; exact Or.inl hr
    | ok tasks =>
      rw [hq] at hr
      simp only at hr
      rcases copyTasks_rows f now _ dateParam tasks 1 0 s r hr with h | ⟨h1, h2⟩
      · exact Or.inl h
      · right
        refine ⟨y, m, d, hD, ?_, ?_⟩
        · rw [h1, time.FormatDate_AddDate_one y m d (time.parseCivil_valid _ _ _ _ hD)]
        · rw [h2, if_pos (time.parseCivil_ne_empty _ _ hD)]

/-- C3 as amended: only `CreateTask` and `PrepareNextDay` add tasks, and only
`CreateTask` looks at the clock.  For every store, clock, driver oracle and
request, a row that is in the table after the request under an id the table
did not hold before was added either by `CreateTask`, and then its date is
one that `isWithinEditWindow` accepts at that clock: a calendar date within
one day of the day the clock's instant has in UTC, which is within one day of
the clock's local day when that is its day in UTC; or by `PrepareNextDay` for
a date `(y, m, d)`, and then it is dated the calendar day after `(y, m, d)`
and carries that date as `carried_from_date`, whatever the clock says. -/
theorem serve_added_row (f : Faults) (now : time.Time) (s : Store) (req : Request) (r : Row)
    (hr : r ∈ (serve f now s req).rows) (hnew : ∀ x ∈ s.rows, x.id ≠ r.id) :
    (∃ date title description, req = .CreateTask date title description
        ∧ isWithinEditWindow now r.date = true
        ∧ (∃ y m d, time.parseCivil r.date = some (y, m, d)
            ∧ now.utcDay - 1 ≤ time.dateToDays y m d
            ∧ time.dateToDays y m d ≤ now.utcDay + 1)
        ∧ (now.localDay = now.utcDay →
            ∃ y m d, time.parseCivil r.date = some (y, m, d)
              ∧ now.localDay - 1 ≤ time.dateToDays y m d
              ∧ time.dateToDays y m d ≤ now.localDay + 1))
      ∨ (∃ dateParam y m d, req = .PrepareNextDay dateParam
          ∧ time.parseCivil dateParam = some (y, m, d)
          ∧ r.date = time.formatCivil (time.nextCivil y m d).1 (time.nextCivil y m d).2.1
              (time.nextCivil y m d).2.2
          ∧ r.carried_from_date = some dateParam) := by
  have hold : r ∉ s.rows := fun h => hnew r h rfl
  have hids : ∀ s' : Store, s'.ids = s.ids → r ∈ s'.rows → False := by
    intro s' h hr'
    obtain ⟨x, hx, hx'⟩ := exists_of_ids_eq s s' h r hr'
    exact hnew x hx hx'
  cases req with
  | CreateTask date title description =>
    left
    rcases CreateTask_rows f now s date title description r hr with h | h
    · exact absurd h hold
    · refine ⟨date, title, description, rfl, h, (isWithinEditWindow_iff now r.date).1 h, ?_⟩
      intro hday
      rw [hday]
      exact (isWithinEditWindow_iff now r.date).1 h
  | UpdateTask idParam newTitle newDescription =>
    exact (hids _ (UpdateTask_ids f now s idParam newTitle newDescription) hr).elim
  | ToggleTask idParam => exact (hids _ (ToggleTask_ids f s idParam) hr).elim
  | AddNotes idParam newNotes => exact (hids _ (AddNotes_ids f now s idParam newNotes) hr).elim
  | DeleteTask idParam => exact absurd (DeleteTask_rows f s idParam r hr) hold
  | PrepareNextDay dateParam =>
    right
    rcases PrepareNextDay_rows f now s dateParam r hr with h | ⟨y, m, d, h1, h2, h3⟩
    · exact absurd h hold
    · exact ⟨dateParam, y, m, d, rfl, h1, h2, h3⟩

end handlers

namespace examples

open db models handlers

/-- C3 fails as stated: at 12:00 UTC on 2025-06-10 `PrepareNextDay` for
2020-01-01 adds a task dated 2020-01-02 under the new id 2, a date that lies
before today-1 and that `isWithinEditWindow` rejects at that clock. -/
theorem PrepareNextDay_oldStore :
    utcNoon.FormatDate = "2025-06-10"
      ∧ (serve reliable utcNoon oldStore (.PrepareNextDay "2020-01-01")).rows
          = oldStore.rows ++
            [{ id := 2, date := "2020-01-02", title := "A", description := some "",
               completed := 0, notes := some "", carried_from_date := some "2020-01-01",
               created_at := 1749556800 }]
      ∧ time.parseCivil "2020-01-02" = some (2020, 1, 2)
      ∧ time.dateToDays 2020 1 2 < utcNoon.localDay - 1
      ∧ isWithinEditWindow utcNoon "2020-01-02" = false := by
  decide

/-- Witness of `serve_added_row`: the row `CreateTask` adds to `oldStore` at
12:00 UTC on 2025-06-10 for 2025-06-11. -/
theorem serve_added_row_witness :
    (∃ date title description,
        Request.CreateTask "2025-06-11" "B" "" = .CreateTask date title description
        ∧ isWithinEditWindow utcNoon "2025-06-11" = true
        ∧ (∃ y m d, time.parseCivil "2025-06-11" = some (y, m, d)
            ∧ utcNoon.utcDay - 1 ≤ time.dateToDays y m d
            ∧ time.dateToDays y m d ≤ utcNoon.utcDay + 1)
        ∧ (utcNoon.localDay = utcNoon.utcDay →
            ∃ y m d, time.parseCivil "2025-06-11" = some (y, m, d)
              ∧ utcNoon.localDay - 1 ≤ time.dateToDays y m d
              ∧ time.dateToDays y m d ≤ utcNoon.localDay + 1))
      ∨ (∃ dateParam y m d, Request.CreateTask "2025-06-11" "B" "" = .PrepareNextDay dateParam
          ∧ time.parseCivil dateParam = some (y, m, d)
          ∧ "2025-06-11" = time.formatCivil (time.nextCivil y m d).1 (time.nextCivil y m d).2.1
              (time.nextCivil y m d).2.2
          ∧ (none : Option String) = some dateParam) :=
  serve_added_row reliable utcNoon oldStore (.CreateTask "2025-06-11" "B" "")
    { id := 2, date := "2025-06-11", title := "B", description := some "", completed := 0,
      notes := some "", carried_from_date := none, created_at := 1749556800 }
    (by decide) (by decide)

end examples

namespace handlers

open db models

theorem Valid_empty : Store.empty.Valid := by
  intro r hr
  simp [Store.empty] at hr

theorem Create_valid (fault : Bool) (now : time.Time) (s s' : Store) (t t' : Task)
    (h : t.Create fault now s = .ok (t', s')) (hv : s.Valid) : s'.Valid := by
  cases fault with
  | true => simp [Task.Create] at h
  | false =>
    simp only [Task.Create, Bool.false_eq_true, if_false, Except.ok.injEq, Prod.mk.injEq] at h
    obtain ⟨_, rfl⟩ := h
    intro r hr
    simp only [List.mem_append, List.mem_singleton] at hr
    rcases hr with hr | rfl
    · exact hv r hr
    · simp only [insertedRow]
      split <;> simp

theorem Valid_updateWhere (id : Int) (set : Row → Row)
    (hset : ∀ r, (set r).completed = 0 ∨ (set r).completed = 1) (s : Store) (hv : s.Valid) :
    Store.Valid { s with rows := updateWhere id set s.rows } := by
  intro r hr
  simp only [updateWhere, List.mem_map] at hr
  obtain ⟨x, hx, rfl⟩ := hr
  split
  · exact hset x
  · exact hv x hx

theorem Update_valid (fault : Bool) (s s' : Store) (t : Task) (h : t.Update fault s = .ok s')
    (hv : s.Valid) : s'.Valid := by
  cases fault with
  | true => simp [Task.Update] at h
  | false =>
    simp only [Task.Update, Bool.false_eq_true, if_false, Except.ok.injEq] at h
    subst h
    apply Valid_updateWhere _ _ _ s hv
    intro r
    simp only [updatedRow]
    split <;> simp

theorem Toggle_valid (fault : Bool) (s s' : Store) (id : Int)
    (h : ToggleTaskComplete fault s id = .ok s') (hv : s.Valid) : s'.Valid := by
  cases fault with
  | true => simp [ToggleTaskComplete] at h
  | false =>
    simp only [ToggleTaskComplete, Bool.false_eq_true, if_false, Except.ok.injEq] at h
    subst h
    apply Valid_updateWhere _ _ _ s hv
    intro r
    simp only [toggledRow]
    split <;> simp

theorem copyTasks_valid (f : Faults) (now : time.Time) (nextDate dateParam : String)
    (tasks : List Task) :
    ∀ (k c : Nat) (s : Store), s.Valid →
      (copyTasks f now nextDate dateParam k tasks (c, s)).2.Valid := by
  induction tasks with
  | nil => intro k c s hv; exact hv
  | cons t rest ih =>
    intro k c s hv
    simp only [copyTasks]
    cases hc : Task.Create (f k) now s (carriedTask nextDate dateParam t) with
    | error e => exact ih _ _ _ hv
    | ok p =>
      obtain ⟨t', s'⟩ := p
      exact ih _ _ _ (Create_valid _ _ _ _ _ _ hc hv)

/-- Every request leaves a valid table valid: column `completed` is only
ever written with 0 or 1. -/
theorem serve_valid (f : Faults) (now : time.Time) (s : Store) (req : Request)
    (hv : s.Valid) : (serve f now s req).Valid := by
  cases req with
  | CreateTask date title description =>
    simp only [serve, CreateTask]
    repeat' split
    all_goals first
      | exact hv
      | exact Create_valid _ _ _ _ _ _ (by assumption) hv
  | UpdateTask idParam newTitle newDescription =>
    simp only [serve, UpdateTask]
    repeat' split
    all_goals first
      | exact hv
      | exact Update_valid _ _ _ _ (by assumption) hv
  | ToggleTask idParam =>
    simp only [serve, ToggleTask]
    repeat' split
    all_goals first
      | exact hv
      | exact Toggle_valid _ _ _ _ (by assumption) hv
  | AddNotes idParam newNotes =>
    simp only [serve, AddNotes]
    repeat' split
    all_goals first
      | exact hv
      | exact Update_valid _ _ _ _ (by assumption) hv
  | DeleteTask idParam =>
    intro r hr
    exact hv r (DeleteTask_rows f s idParam r hr)
  | PrepareNextDay dateParam =>
    simp only [serve, PrepareNextDay]
    repeat' split
    all_goals first
      | exact hv
      | exact copyTasks_valid _ _ _ _ _ _ _ _ hv

/-- Every table the service reaches from the empty table is valid. -/
theorem serveAll_valid (history : List (Faults × time.Time × Request)) :
    ∀ s : Store, s.Valid → (serveAll history s).Valid := by
  induction history with
  | nil => intro s hv; exact hv
  | cons x rest ih =>
    intro s hv
    obtain ⟨f, now, req⟩ := x
    exact ih _ (serve_valid f now s req hv)

end handlers

namespace examples

open db models handlers

/-- Theorem `UpdateTask_branches` applied to `juneStore` at 12:00 UTC on
2025-06-10. -/
theorem UpdateTask_branches_witness :
    (UpdateTask reliable utcNoon juneStore (some 2) "B" "b").1
        = .Redirect StatusFound ("/day/" ++ "2025-06-10")
      ∧ GetTaskByID false (UpdateTask reliable utcNoon juneStore (some 2) "B" "b").2 2
          = .ok { ID := 2, Date := "2025-06-10", Title := "B", Description := "b",
                  Completed := false, Notes := "[2025-06-10 08:00] n", CarriedFromDate := "",
                  CreatedAt := 1749540001 } :=
  have h := (UpdateTask_branches reliable utcNoon juneStore 2
    { id := 2, date := "2025-06-10", title := "open", description := some "d",
      completed := 0, notes := some "[2025-06-10 08:00] n",
      carried_from_date := none, created_at := 1749540001 } "B" "b" rfl (by decide)).2.2
    (by decide) (by decide) rfl
  ⟨h.1, h.2.1⟩

/-- Theorem `serve_valid` applied to `juneStore`. -/
theorem serve_valid_witness :
    (serve reliable utcNoon juneStore (.ToggleTask (some 2))).Valid :=
  serve_valid reliable utcNoon juneStore (.ToggleTask (some 2)) (by decide)

/-- Theorem `serveAll_valid` applied to a history of two requests from the empty
table. -/
theorem serveAll_valid_witness :
    (serveAll [(reliable, utcNoon, .CreateTask "" "A" ""),
        (reliable, utcNoon, .ToggleTask (some 1))] Store.empty).Valid :=
  serveAll_valid _ Store.empty Valid_empty

end examples

namespace handlers

open db models

/-- The window of `isWithinEditWindow` is the three UTC days around the UTC
day of the clock: the function answers `true` exactly on the strings that
`time.Parse` reads as a date whose day number lies within one of
`now.utcDay`. -/
theorem isWithinEditWindow_iff_utcDay (now : time.Time) (taskDate : String) :
    isWithinEditWindow now taskDate = true ↔
      ∃ y m d, time.parseCivil taskDate = some (y, m, d)
        ∧ now.utcDay - 1 ≤ time.dateToDays y m d ∧ time.dateToDays y m d ≤ now.utcDay + 1 :=
  isWithinEditWindow_iff now taskDate

/-- While the local day of the clock is its UTC day, `isWithinEditWindow`
answers `true` exactly on the strings that `time.Parse` reads as a date from
the day before to the day after the clock's local day. -/
theorem isWithinEditWindow_iff_localDay (now : time.Time) (taskDate : String)
    (hday : now.localDay = now.utcDay) :
    isWithinEditWindow now taskDate = true ↔
      ∃ y m d, time.parseCivil taskDate = some (y, m, d)
        ∧ now.localDay - 1 ≤ time.dateToDays y m d
        ∧ time.dateToDays y m d ≤ now.localDay + 1 := by
  rw [hday]
  exact isWithinEditWindow_iff now taskDate

/-- Handler `CreateTask`, branch by branch: an empty title is answered with 400 and a
date that `isWithinEditWindow` rejects (the clock's local date when the form
gives none) with 403, both without touching the store; otherwise, unless the
driver fails the insert (500, store untouched), one row is appended with a
rowid larger than every id of the table, the form's title and description,
that date, `completed` 0, empty notes, no `carried_from_date` and the clock
as `created_at`, and the reply redirects to the day of that date. -/
theorem CreateTask_branches (f : Faults) (now : time.Time) (s : Store)
    (date title description : String) :
    (title = "" →
        CreateTask f now s date title description
          = (.HTML StatusBadRequest "Title is required", s))
      ∧ (title ≠ "" →
          isWithinEditWindow now (if date = "" then now.FormatDate else date) = false →
        CreateTask f now s date title description
          = (.HTML StatusForbidden "Can only create tasks within 1 day of today", s))
      ∧ (title ≠ "" →
          isWithinEditWindow now (if date = "" then now.FormatDate else date) = true →
          f 0 = true →
        CreateTask f now s date title description
          = (.HTML StatusInternalServerError "Failed to create task", s))
      ∧ (title ≠ "" →
          isWithinEditWindow now (if date = "" then now.FormatDate else date) = true →
          f 0 = false →
        CreateTask f now s date title description
            = (.Redirect StatusFound ("/day/" ++ (if date = "" then now.FormatDate else date)),
                { rows := s.rows ++
                    [{ id := nextRowid s
                       date := if date = "" then now.FormatDate else date
                       title := title
                       description := some description
                       completed := 0
                       notes := some ""
                       carried_from_date := none
                       created_at := now.sec }],
                  seq := nextRowid s })
          ∧ ∀ r ∈ s.rows, r.id < nextRowid s) :=
  CreateTask_cases f now s date title description

end handlers

namespace examples

open db models handlers

/-- Theorem `CreateTask_branches` applied at 12:00 UTC on 2025-06-10 to a form
without a date. -/
theorem CreateTask_branches_witness :
    CreateTask reliable utcNoon Store.empty "" "A" ""
        = (.Redirect StatusFound ("/day/" ++ (if "" = "" then utcNoon.FormatDate else "")),
            { rows := Store.empty.rows ++
                [{ id := nextRowid Store.empty
                   date := if "" = "" then utcNoon.FormatDate else ""
                   title := "A"
                   description := some ""
                   completed := 0
                   notes := some ""
                   carried_from_date := none
                   created_at := utcNoon.sec }],
              seq := nextRowid Store.empty })
      ∧ ∀ r ∈ Store.empty.rows, r.id < nextRowid Store.empty :=
  (CreateTask_branches reliable utcNoon Store.empty "" "A" "").2.2.2 (by decide) (by decide) rfl

/-- Theorem `isWithinEditWindow_iff_localDay` applied at 12:00 UTC on 2025-06-10. -/
theorem isWithinEditWindow_iff_localDay_witness :
    isWithinEditWindow utcNoon "2025-06-11" = true ↔
      ∃ y m d, time.parseCivil "2025-06-11" = some (y, m, d)
        ∧ utcNoon.localDay - 1 ≤ time.dateToDays y m d
        ∧ time.dateToDays y m d ≤ utcNoon.localDay + 1 :=
  isWithinEditWindow_iff_localDay utcNoon "2025-06-11" (by decide)

end examples

namespace handlers

open db models

theorem Titled_empty : Store.empty.Titled := by
  intro r hr
  simp [Store.empty] at hr

theorem Create_titled (fault : Bool) (now : time.Time) (s s' : Store) (t t' : Task)
    (h : t.Create fault now s = .ok (t', s')) (ht : t.Title ≠ "") (hs : s.Titled) :
    s'.Titled := by
  cases fault with
  | true => simp [Task.Create] at h
  | false =>
    simp only [Task.Create, Bool.false_eq_true, if_false, Except.ok.injEq, Prod.mk.injEq] at h
    obtain ⟨_, rfl⟩ := h
    intro r hr
    simp only [List.mem_append, List.mem_singleton] at hr
    rcases hr with hr | rfl
    · exact hs r hr
    · exact ht

theorem Update_titled (fault : Bool) (s s' : Store) (t : Task) (h : t.Update fault s = .ok s')
    (ht : t.Title ≠ "") (hs : s.Titled) : s'.Titled := by
  cases fault with
  | true => simp [Task.Update] at h
  | false =>
    simp only [Task.Update, Bool.false_eq_true, if_false, Except.ok.injEq] at h
    subst h
    intro r hr
    simp only [updateWhere, List.mem_map] at hr
    obtain ⟨x, hx, rfl⟩ := hr
    split
    · exact ht
    · exact hs x hx

theorem Toggle_titled (fault : Bool) (s s' : Store) (id : Int)
    (h : ToggleTaskComplete fault s id = .ok s') (hs : s.Titled) : s'.Titled := by
  cases fault with
  | true => simp [ToggleTaskComplete] at h
  | false =>
    simp only [ToggleTaskComplete, Bool.false_eq_true, if_false, Except.ok.injEq] at h
    subst h
    intro r hr
    simp only [updateWhere, List.mem_map] at hr
    obtain ⟨x, hx, rfl⟩ := hr
    split
    · exact hs x hx
    · exact hs x hx

/-- A task read by `GetTaskByID` from a table without empty titles has a
title. -/
theorem GetTaskByID_titled (fault : Bool) (s : Store) (id : Int) (task : Task)
    (h : GetTaskByID fault s id = .ok task) (hs : s.Titled) : task.Title ≠ "" := by
  cases fault with
  | true => simp [GetTaskByID] at h
  | false =>
    simp only [GetTaskByID, Bool.false_eq_true, if_false] at h
    cases hfind : s.rows.find? (fun r => r.id == id) with
    | none => rw [hfind] at h; simp at h
    | some r =>
      rw [hfind] at h
      simp only [Except.ok.injEq] at h
      subst h
      exact hs r (List.mem_of_find?_eq_some hfind)

/-- The tasks read by `GetUncompletedTasksByDate` from a table without empty
titles have titles. -/
theorem GetUncompletedTasksByDate_titled (fault : Bool) (s : Store) (date : String)
    (tasks : List Task) (h : GetUncompletedTasksByDate fault s date = .ok tasks)
    (hs : s.Titled) : ∀ t ∈ tasks, t.Title ≠ "" := by
  cases fault with
  | true => simp [GetUncompletedTasksByDate] at h
  | false =>
    simp only [GetUncompletedTasksByDate, Bool.false_eq_true, if_false, Except.ok.injEq] at h
    subst h
    intro t ht
    obtain ⟨r, hr, rfl⟩ := List.mem_map.1 ht
    exact hs r (List.mem_filter.1 ((orderByCreatedAt_perm _).mem_iff.1 hr)).1

theorem copyTasks_titled (f : Faults) (now : time.Time) (nextDate dateParam : String)
    (tasks : List Task) :
    ∀ (k c : Nat) (s : Store), (∀ t ∈ tasks, t.Title ≠ "") → s.Titled →
      (copyTasks f now nextDate dateParam k tasks (c, s)).2.Titled := by
  induction tasks with
  | nil => intro k c s _ hs; exact hs
  | cons t rest ih =>
    intro k c s ht hs
    have hrest : ∀ t' ∈ rest, t'.Title ≠ "" := fun t' h => ht t' (List.mem_cons_of_mem _ h)
    simp only [copyTasks]
    cases hc : Task.Create (f k) now s (carriedTask nextDate dateParam t) with
    | error e => exact ih _ _ _ hrest hs
    | ok p =>
      obtain ⟨t', s'⟩ := p
      exact ih _ _ _ hrest
        (Create_titled _ _ _ _ _ _ hc (ht t (List.mem_cons_self _ _)) hs)

theorem CreateTask_titled (f : Faults) (now : time.Time) (s : Store)
    (date title description : String) (hs : s.Titled) :
    (CreateTask f now s date title description).2.Titled := by
  obtain ⟨b1, b2, b3, b4⟩ := CreateTask_cases f now s date title description
  by_cases ht : title = ""
  · rw [b1 ht]; exact hs
  · cases hw : isWithinEditWindow now (if date = "" then now.FormatDate else date) with
    | false => rw [b2 ht hw]; exact hs
    | true =>
      cases hf : f 0 with
      | true => rw [b3 ht hw hf]; exact hs
      | false =>
        rw [(b4 ht hw hf).1]
        intro r hr
        simp only [List.mem_append, List.mem_singleton] at hr
        rcases hr with hr | rfl
        · exact hs r hr
        · exact ht

theorem UpdateTask_titled (f : Faults) (now : time.Time) (s : Store) (idParam : Option Int)
    (newTitle newDescription : String) (hs : s.Titled) :
    (UpdateTask f now s idParam newTitle newDescription).2.Titled := by
  unfold UpdateTask
  cases idParam with
  | none => exact hs
  | some id =>
    simp only
    cases GetTaskByID (f 0) s id with
    | error e => exact hs
    | ok task =>
      simp only
      split
      · exact hs
      · split
        · exact hs
        · rename_i hne
          cases hu : Task.Update (f 1) s
              { task with Title := newTitle, Description := newDescription } with
          | error e => exact hs
          | ok s' => exact Update_titled _ _ _ _ hu hne hs

theorem ToggleTask_titled (f : Faults) (s : Store) (idParam : Option Int) (hs : s.Titled) :
    (ToggleTask f s idParam).2.Titled := by
  unfold ToggleTask
  cases idParam with
  | none => exact hs
  | some id =>
    simp only
    cases GetTaskByID (f 0) s id with
    | error e => exact hs
    | ok task =>
      simp only
      cases hu : ToggleTaskComplete (f 1) s id with
      | error e => exact hs
      | ok s' => exact Toggle_titled _ _ _ _ hu hs

theorem AddNotes_titled (f : Faults) (now : time.Time) (s : Store) (idParam : Option Int)
    (newNotes : String) (hs : s.Titled) : (AddNotes f now s idParam newNotes).2.Titled := by
  unfold AddNotes
  cases idParam with
  | none => exact hs
  | some id =>
    simp only
    split
    · cases GetTaskByID (f 0) s id <;> exact hs
    · cases hg : GetTaskByID (f 0) s id with
      | error e => exact hs
      | ok task =>
        simp only
        split
        · exact hs
        · rename_i s' hu
          exact Update_titled _ _ _ _ hu (GetTaskByID_titled _ _ _ task hg hs) hs

theorem DeleteTask_titled (f : Faults) (s : Store) (idParam : Option Int) (hs : s.Titled) :
    (DeleteTask f s idParam).2.Titled :=
  fun r hr => hs r (DeleteTask_rows f s idParam r hr)

theorem PrepareNextDay_titled (f : Faults) (now : time.Time) (s : Store) (dateParam : String)
    (hs : s.Titled) : (PrepareNextDay f now s dateParam).2.2.Titled := by
  unfold PrepareNextDay
  cases time.Parse dateParam with
  | none => exact hs
  | some currentDate =>
    simp only
    cases hq : GetUncompletedTasksByDate (f 0) s dateParam with
    | error e => exact hs
    | ok tasks =>
      exact copyTasks_titled _ _ _ _ _ _ _ _
        (GetUncompletedTasksByDate_titled _ _ _ _ hq hs) hs

/-- Every request leaves a table without empty titles without empty
titles. -/
theorem serve_titled (f : Faults) (now : time.Time) (s : Store) (req : Request)
    (hs : s.Titled) : (serve f now s req).Titled := by
  cases req with
  | CreateTask date title description => exact CreateTask_titled f now s _ _ _ hs
  | UpdateTask idParam newTitle newDescription =>
    exact UpdateTask_titled f now s _ _ _ hs
  | ToggleTask idParam => exact ToggleTask_titled f s _ hs
  | AddNotes idParam newNotes => exact AddNotes_titled f now s _ _ hs
  | DeleteTask idParam => exact DeleteTask_titled f s _ hs
  | PrepareNextDay dateParam => exact PrepareNextDay_titled f now s _ hs

theorem serveAll_titled (history : List (Faults × time.Time × Request)) :
    ∀ s : Store, s.Titled → (serveAll history s).Titled := by
  induction history with
  | nil => intro s hs; exact hs
  | cons x rest ih =>
    intro s hs
    obtain ⟨f, now, req⟩ := x
    exact ih _ (serve_titled f now s req hs)

/-- C11: the title of every task is non-empty at all times.  Starting from
the empty table, after any finite sequence of requests (`CreateTask`,
`UpdateTask`, `ToggleTask`, `AddNotes`, `DeleteTask`, `PrepareNextDay`) with
arbitrary arguments, clocks and driver failures, every row of the table has a
non-empty title, and so has every task read from it by `GetTaskByID` or
`GetTasksByDate`. -/
theorem title_nonempty_always (history : List (Faults × time.Time × Request)) :
    (∀ r ∈ (serveAll history Store.empty).rows, r.title ≠ "")
      ∧ (∀ (fault : Bool) (id : Int) (task : Task),
          GetTaskByID fault (serveAll history Store.empty) id = .ok task → task.Title ≠ "")
      ∧ (∀ (fault : Bool) (date : String) (tasks : List Task),
          GetTasksByDate fault (serveAll history Store.empty) date = .ok tasks →
            ∀ t ∈ tasks, t.Title ≠ "") := by
  have hs : (serveAll history Store.empty).Titled :=
    serveAll_titled history Store.empty Titled_empty
  refine ⟨hs, fun fault id task h => GetTaskByID_titled fault _ id task h hs, ?_⟩
  intro fault date tasks h t ht
  cases fault with
  | true => simp [GetTasksByDate] at h
  | false =>
    simp only [GetTasksByDate, Bool.false_eq_true, if_false, Except.ok.injEq] at h
    subst h
    obtain ⟨r, hr, rfl⟩ := List.mem_map.1 ht
    exact hs r (List.mem_filter.1 ((orderByCreatedAt_perm _).mem_iff.1 hr)).1

end handlers

namespace examples

open db models handlers

/-- The requests that try to store an empty title, evaluated at 12:00 UTC on
2025-06-10: `CreateTask` and `UpdateTask` answer 400 and leave the table as it
is, `PrepareNextDay` copies the title of its source. -/
theorem empty_title_refused :
    CreateTask reliable utcNoon juneStore "" "" "d"
        = (.HTML 400 "Title is required", juneStore)
      ∧ UpdateTask reliable utcNoon juneStore (some 2) "" "d"
          = (.HTML 400 "Title is required", juneStore)
      ∧ (serveAll [(reliable, utcNoon, .PrepareNextDay "2025-06-10"),
            (reliable, utcNoon, .AddNotes (some 3) "n")] juneStore).rows.map
          (fun r => (r.id, r.title))
        = [(1, "done"), (2, "open"), (3, "open")] := by
  decide

end examples
